import Mathlib

/-!
Strip planning and fail-stop transfer in dvid-transfer: a shallow embedding of
`transfer.go`.

* Go `int` is a 64-bit signed integer. The program as it runs is modelled by the
  definitions whose names end in `64`: every arithmetic operation is followed by
  `wrap64`, the reduction to the 64-bit range, and `/` is Go's truncating division,
  `Int.tdiv`. The definitions without the suffix compute the same expressions on
  unbounded integers; they give the exact values that the statements compare the
  program with, and `InRange` is the condition under which no operation wraps and both
  agree.
* `[3]int` is the record `Int3` with components `i0`, `i1`, `i2`.
* The network is a script: the result of the `k`-th HTTP exchange of the run.
  `encoding/json` is a pair of decoding functions supplied by the environment.
* `os.Exit` is the outcome `Outcome.exit`; `fmt.Printf` appends to the console text.
* A `for` loop is a recursion on a fuel counter that keeps the loop condition of the
  source; running out of fuel is the separate result `none` / `Outcome.outOfFuel`.
  The inner loop always ends within `strips` passes. The outer loop of the 64-bit
  program ends unless `z++` wraps, so its fuel is a parameter: statements hold for every
  fuel that suffices, and `planPrefix64` lists the strips built within a given fuel.
-/

namespace DvidTransfer

/-! ## Data model -/

/-- Go `[3]int`. -/
structure Int3 where
  i0 : Int
  i1 : Int
  i2 : Int
deriving DecidableEq, Repr

/-- Go `BaseMetadata`. -/
structure BaseMetadata where
  TypeName : String
  TypeURL : String
  TypeVersion : String
  Name : String
  RepoUUID : String
  Compression : String
  Checksum : String
  Persistence : String
  Versioned : Bool
deriving DecidableEq, Repr

/-- Go `Metadata`; the `interface{}` extension is kept as undecoded text. -/
structure Metadata where
  Base : BaseMetadata
  Extended : String
deriving DecidableEq, Repr

/-- The anonymous `Extended` struct of Go `LabelMetadata`. -/
structure LabelExtended where
  BlockSize : Int3
  MinIndex : Int3
  MaxIndex : Int3
deriving DecidableEq, Repr

/-- Go `LabelMetadata`. -/
structure LabelMetadata where
  Base : BaseMetadata
  Extended : LabelExtended
deriving DecidableEq, Repr

/-! ## The arithmetic of `sendLabels` (transfer.go, lines 94-109) on exact integers -/

/-- Line 94, `nx := maxIndex[0] - minIndex[0] + 1`, as an exact integer. -/
def nx (g : LabelExtended) : Int := g.MaxIndex.i0 - g.MinIndex.i0 + 1

/-- Line 95, `ny := maxIndex[1] - minIndex[1] + 1`, as an exact integer. -/
def ny (g : LabelExtended) : Int := g.MaxIndex.i1 - g.MinIndex.i1 + 1

/-- Line 98, `vx := nx * blockSize[0]`, as an exact integer. -/
def vx (g : LabelExtended) : Int := nx g * g.BlockSize.i0

/-- Line 99, `vy := ny * blockSize[1]` (the outer `vy`, the full layer), as an exact
integer. -/
def vy (g : LabelExtended) : Int := ny g * g.BlockSize.i1

/-- Line 100: `vz := blockSize[2]`. -/
def vz (g : LabelExtended) : Int := g.BlockSize.i2

/-- Lines 102-105, `strips`, computed on exact integers: 1 for a layer of at most
2,000,000,000 bytes, else `floor(size / 2000000000) + 1`. The program computes
`strips64`. -/
def strips (g : LabelExtended) : Int :=
  if vx g * vy g * vz g * 8 > 2000000000 then
    (vx g * vy g * vz g * 8).tdiv 2000000000 + 1
  else 1

/-- Line 106, `byPerStrip := ny / strips`, on exact integers. The program computes
`byPerStrip64`. -/
def byPerStrip (g : LabelExtended) : Int := (ny g).tdiv (strips g)

/-- Line 109, `ox := minIndex[0] * blockSize[0]`, as an exact integer. The program
computes `ox64`. -/
def ox (g : LabelExtended) : Int := g.MinIndex.i0 * g.BlockSize.i0

/-! ## The strips visited by the two loops (lines 110-123 and 148) on exact integers -/

/-- The values of the loop variables at the point where one pair of requests is built:
layer `z`, counter `n`, block rows `by0 .. by1`, and the six numbers of the address. -/
structure Strip where
  z : Int
  n : Int
  by0 : Int
  by1 : Int
  vx : Int
  vy : Int
  vz : Int
  ox : Int
  oy : Int
  oz : Int
deriving DecidableEq, Repr

/-- Lines 117-123 on exact integers: the strip built by one pass of the inner loop
body. The program computes `stripAt64`. -/
def stripAt (g : LabelExtended) (z oz n by0 : Int) : Strip :=
  let by1 := by0 + byPerStrip g - 1
  let by1 := if by1 > g.MaxIndex.i1 then g.MaxIndex.i1 else by1
  let oy := by0 * g.BlockSize.i1
  let vy := (by1 - by0 + 1) * g.BlockSize.i1
  { z := z, n := n, by0 := by0, by1 := by1,
    vx := vx g, vy := vy, vz := vz g, ox := ox g, oy := oy, oz := oz }

/-- The inner loop `for n := 0; n < strips; n++` with its `break`, on exact integers,
the transfer itself left out: the strips of one layer in the order they are built. -/
def stripLoop (g : LabelExtended) (z oz : Int) : Nat → Int → Int → Option (List Strip)
  | 0, n, _ => if n < strips g then none else some []
  | fuel + 1, n, by0 =>
    if n < strips g then
      if by0 > g.MaxIndex.i1 then some []
      else
        match stripLoop g z oz fuel (n + 1) (by0 + byPerStrip g) with
        | some rest => some (stripAt g z oz n by0 :: rest)
        | none => none
    else some []

/-- The body of the outer loop for layer `z` (lines 111-149), on exact integers. -/
def layerStrips (g : LabelExtended) (z : Int) : Option (List Strip) :=
  stripLoop g z (z * g.BlockSize.i2) (strips g).toNat 0 g.MinIndex.i1

/-- The outer loop `for z := minIndex[2]; z <= maxIndex[2]; z++`, on exact integers. -/
def layerLoop (g : LabelExtended) : Nat → Int → Option (List Strip)
  | 0, z => if z ≤ g.MaxIndex.i2 then none else some []
  | fuel + 1, z =>
    if z ≤ g.MaxIndex.i2 then
      match layerStrips g z, layerLoop g fuel (z + 1) with
      | some l, some rest => some (l ++ rest)
      | _, _ => none
    else some []

/-- All strips of the two loops on exact integers, in order. -/
def stripPlan (g : LabelExtended) : Option (List Strip) :=
  layerLoop g (g.MaxIndex.i2 - g.MinIndex.i2 + 1).toNat g.MinIndex.i2

/-! ## The arithmetic and the loops as the program runs them, on 64-bit integers

Every operation of lines 94-123 and 148 is reduced to the range of a 64-bit Go `int`. -/

/-- The value a 64-bit Go `int` holds after an operation whose exact result is `x`. -/
def wrap64 (x : Int) : Int :=
  (x + 9223372036854775808) % 18446744073709551616 - 9223372036854775808

/-- Line 94: `nx := maxIndex[0] - minIndex[0] + 1`. -/
def nx64 (g : LabelExtended) : Int := wrap64 (wrap64 (g.MaxIndex.i0 - g.MinIndex.i0) + 1)

/-- Line 95: `ny := maxIndex[1] - minIndex[1] + 1`. -/
def ny64 (g : LabelExtended) : Int := wrap64 (wrap64 (g.MaxIndex.i1 - g.MinIndex.i1) + 1)

/-- Line 98: `vx := nx * blockSize[0]`. -/
def vx64 (g : LabelExtended) : Int := wrap64 (nx64 g * g.BlockSize.i0)

/-- Line 99: `vy := ny * blockSize[1]` (the outer `vy`, the full layer). -/
def vy64 (g : LabelExtended) : Int := wrap64 (ny64 g * g.BlockSize.i1)

/-- The expression `vx*vy*vz*8` of lines 103-104, evaluated left to right. -/
def layerBytes64 (g : LabelExtended) : Int :=
  wrap64 (wrap64 (wrap64 (vx64 g * vy64 g) * g.BlockSize.i2) * 8)

/-- Lines 102-105: `strips`. -/
def strips64 (g : LabelExtended) : Int :=
  if layerBytes64 g > 2000000000 then
    wrap64 (wrap64 ((layerBytes64 g).tdiv 2000000000) + 1)
  else 1

/-- Line 106: `byPerStrip := ny / strips`. The divisor is never 0. -/
def byPerStrip64 (g : LabelExtended) : Int := wrap64 ((ny64 g).tdiv (strips64 g))

/-- Line 109: `ox := minIndex[0] * blockSize[0]`. -/
def ox64 (g : LabelExtended) : Int := wrap64 (g.MinIndex.i0 * g.BlockSize.i0)

/-- Lines 117-123: the strip built by one pass of the inner loop body. -/
def stripAt64 (g : LabelExtended) (z oz n by0 : Int) : Strip :=
  let by1 := wrap64 (wrap64 (by0 + byPerStrip64 g) - 1)
  let by1 := if by1 > g.MaxIndex.i1 then g.MaxIndex.i1 else by1
  let oy := wrap64 (by0 * g.BlockSize.i1)
  let vy := wrap64 (wrap64 (wrap64 (by1 - by0) + 1) * g.BlockSize.i1)
  { z := z, n := n, by0 := by0, by1 := by1,
    vx := vx64 g, vy := vy, vz := g.BlockSize.i2, ox := ox64 g, oy := oy, oz := oz }

/-- The inner loop `for n := 0; n < strips; n++` with its `break` and the step
`by0 += byPerStrip`, the transfer itself left out: the strips of one layer in the order
they are built. -/
def stripLoop64 (g : LabelExtended) (z oz : Int) : Nat → Int → Int → Option (List Strip)
  | 0, n, _ => if n < strips64 g then none else some []
  | fuel + 1, n, by0 =>
    if n < strips64 g then
      if by0 > g.MaxIndex.i1 then some []
      else
        match stripLoop64 g z oz fuel (wrap64 (n + 1)) (wrap64 (by0 + byPerStrip64 g)) with
        | some rest => some (stripAt64 g z oz n by0 :: rest)
        | none => none
    else some []

/-- The body of the outer loop for layer `z` (lines 111-149): `oz := z * blockSize[2]`
and the inner loop from `n = 0`, `by0 = minIndex[1]`. -/
def layerStrips64 (g : LabelExtended) (z : Int) : Option (List Strip) :=
  stripLoop64 g z (wrap64 (z * g.BlockSize.i2)) (strips64 g).toNat 0 g.MinIndex.i1

/-- The outer loop `for z := minIndex[2]; z <= maxIndex[2]; z++`; `none` when it has not
ended within `fuel` passes. -/
def layerLoop64 (g : LabelExtended) : Nat → Int → Option (List Strip)
  | 0, z => if z ≤ g.MaxIndex.i2 then none else some []
  | fuel + 1, z =>
    if z ≤ g.MaxIndex.i2 then
      match layerStrips64 g z, layerLoop64 g fuel (wrap64 (z + 1)) with
      | some l, some rest => some (l ++ rest)
      | _, _ => none
    else some []

/-- All strips of the two loops, in order, when the outer loop ends within
`MaxIndex[2] - MinIndex[2] + 1` passes, as it does unless `z++` wraps. -/
def stripPlan64 (g : LabelExtended) : Option (List Strip) :=
  layerLoop64 g (g.MaxIndex.i2 - g.MinIndex.i2 + 1).toNat g.MinIndex.i2

/-- An integer that a 64-bit Go `int` can hold. -/
def Fits (x : Int) : Prop := -9223372036854775808 ≤ x ∧ x < 9223372036854775808

instance (x : Int) : Decidable (Fits x) := by
  unfold Fits; infer_instance

/-- A geometry on which no operation of the loops leaves the 64-bit range: the byte
size of a layer, the voxel origins of the corners, and the successors of the largest
block row and layer all fit. -/
def InRange (g : LabelExtended) : Prop :=
  Fits (vx g * vy g * vz g * 8) ∧
  Fits (g.MinIndex.i0 * g.BlockSize.i0) ∧
  Fits (g.MinIndex.i1 * g.BlockSize.i1) ∧ Fits (g.MaxIndex.i1 * g.BlockSize.i1) ∧
  Fits (g.MinIndex.i1 - 1) ∧ Fits (g.MaxIndex.i1 + 1) ∧
  Fits (g.MinIndex.i2 * g.BlockSize.i2) ∧ Fits (g.MaxIndex.i2 * g.BlockSize.i2) ∧
  Fits g.MinIndex.i2 ∧ Fits (g.MaxIndex.i2 + 1)

instance (g : LabelExtended) : Decidable (InRange g) := by
  unfold InRange; infer_instance

/-! ## The network, the console and process exit -/

/-- What reading a response body to its end yields: the bytes, or a read error. -/
inductive Body
  | data (bytes : String)
  | broken (err : String)
deriving DecidableEq, Repr

/-- Go `*http.Response`, as far as the program inspects it. -/
structure Response where
  StatusCode : Int
  Body : Body
deriving DecidableEq, Repr

/-- The pair `(resp, err)` returned by `http.Get` and `http.Post`. -/
inductive HttpResult
  | response (resp : Response)
  | error (err : String)
deriving DecidableEq, Repr

/-- One request sent by the program. `http.Get` has no content type and no body. -/
structure Request where
  method : String
  url : String
  contentType : String
  body : Option Body
deriving DecidableEq, Repr

/-- Method and URL of a request. -/
def Request.addr (r : Request) : String × String := (r.method, r.url)

/-- Everything outside the program: the result of the `k`-th HTTP exchange of the run
(counting from 0) and the two uses of `json.Unmarshal`. The program is sequential, so
whatever the two servers do during one run is one such script. -/
structure Env where
  http : Nat → HttpResult
  unmarshalMetadata : String → Except String Metadata
  unmarshalLabelMetadata : String → Except String LabelMetadata

/-- Observable state: the requests sent so far, oldest first, and the text printed so
far, one entry per `fmt.Printf`. -/
structure Sys where
  log : List Request
  out : List String
deriving DecidableEq, Repr

/-- How a call ends: it returns, the process exits through `os.Exit`, or the model ran
out of loop fuel. -/
inductive Outcome (α : Type)
  | ok (a : α) (s : Sys)
  | exit (code : Int) (s : Sys)
  | outOfFuel
deriving Repr

/-- Go `fmt.Printf` with the formatted text. -/
def printf (s : Sys) (text : String) : Sys := { s with out := s.out ++ [text] }

/-- Go `http.Get(url)`. -/
def httpGet (env : Env) (url : String) (s : Sys) : HttpResult × Sys :=
  (env.http s.log.length,
    { s with log := s.log ++ [{ method := "GET", url := url, contentType := "", body := none }] })

/-- Go `http.Post(url, contentType, body)`. -/
def httpPost (env : Env) (url contentType : String) (body : Body) (s : Sys) :
    HttpResult × Sys :=
  (env.http s.log.length,
    { s with log := s.log ++
        [{ method := "POST", url := url, contentType := contentType, body := some body }] })

/-- Go `%v` of a `[3]int`. -/
def fmtInt3 (v : Int3) : String :=
  "[" ++ toString v.i0 ++ " " ++ toString v.i1 ++ " " ++ toString v.i2 ++ "]"

/-! ## `getMetadata` (lines 28-50) -/

/-- Go `getMetadata`. -/
def getMetadata (env : Env) (baseUrl : String) (s : Sys) : Outcome Metadata :=
  let infoUrl := baseUrl ++ "/info"
  match httpGet env infoUrl s with
  | (.error err, s) => .exit 1 (printf s ("Error on getting metadata: " ++ err ++ "\n"))
  | (.response resp, s) =>
    if resp.StatusCode ≠ 200 then
      .exit 1 (printf s ("Bad status on getting metadata: " ++ toString resp.StatusCode ++ "\n"))
    else
      match resp.Body with
      | .broken err => .exit 1 (printf s ("Could not read metadata: " ++ err ++ "\n"))
      | .data metadata =>
        match env.unmarshalMetadata metadata with
        | .error err => .exit 1 (printf s ("Error parsing metadata: " ++ err ++ "\n"))
        | .ok m => .ok m s

/-! ## `sendLabels` (lines 61-151) -/

/-- Lines 124-127: `fmt.Sprintf("%s/raw/0_1_2/%d_%d_%d/%d_%d_%d", base, vx, vy, vz, ox, oy, oz)`. -/
def rawUrl (base : String) (st : Strip) : String :=
  base ++ "/raw/0_1_2/" ++ toString st.vx ++ "_" ++ toString st.vy ++ "_" ++ toString st.vz
    ++ "/" ++ toString st.ox ++ "_" ++ toString st.oy ++ "_" ++ toString st.oz

/-- Lines 124-146: the exchange for one strip, read from the source then write to the
destination, with the four fatal exits. -/
def transferStrip (env : Env) (srcUrl dstUrl : String) (st : Strip) (s : Sys) : Outcome Unit :=
  let url := rawUrl srcUrl st
  let url2 := rawUrl dstUrl st
  let s := printf s ("Transfering: " ++ url ++ " -> " ++ url2 ++ "\n")
  match httpGet env url s with
  | (.error err, s) => .exit 1 (printf s ("Receive error: " ++ err ++ "\n"))
  | (.response resp, s) =>
    if resp.StatusCode ≠ 200 then
      .exit 1 (printf s ("Bad status on receiving data: " ++ toString resp.StatusCode ++ "\n"))
    else
      match httpPost env url2 "application/octet-stream" resp.Body s with
      | (.error err, s) => .exit 1 (printf s ("Transmit error: " ++ err ++ "\n"))
      | (.response resp2, s) =>
        if resp2.StatusCode ≠ 200 then
          .exit 1 (printf s ("Bad status on sending data: " ++ toString resp2.StatusCode ++ "\n"))
        else .ok () s

/-- The inner loop `for n := 0; n < strips; n++` (lines 113-149), on exact integers. -/
def sendStrips (env : Env) (g : LabelExtended) (srcUrl dstUrl : String) (z oz : Int) :
    Nat → Int → Int → Sys → Outcome Unit
  | 0, n, _, s => if n < strips g then .outOfFuel else .ok () s
  | fuel + 1, n, by0, s =>
    if n < strips g then
      if by0 > g.MaxIndex.i1 then .ok () s
      else
        match transferStrip env srcUrl dstUrl (stripAt g z oz n by0) s with
        | .ok _ s => sendStrips env g srcUrl dstUrl z oz fuel (n + 1) (by0 + byPerStrip g) s
        | .exit code s => .exit code s
        | .outOfFuel => .outOfFuel
    else .ok () s

/-- The outer loop `for z := minIndex[2]; z <= maxIndex[2]; z++` (lines 110-150), on
exact integers. -/
def sendLayers (env : Env) (g : LabelExtended) (srcUrl dstUrl : String) :
    Nat → Int → Sys → Outcome Unit
  | 0, z, s => if z ≤ g.MaxIndex.i2 then .outOfFuel else .ok () s
  | fuel + 1, z, s =>
    if z ≤ g.MaxIndex.i2 then
      match sendStrips env g srcUrl dstUrl z (z * g.BlockSize.i2) (strips g).toNat 0
          g.MinIndex.i1 s with
      | .ok _ s => sendLayers env g srcUrl dstUrl fuel (z + 1) s
      | .exit code s => .exit code s
      | .outOfFuel => .outOfFuel
    else .ok () s

/-- Lines 83-109 and the two loops, on exact integers: what `sendLabels` does once the
label metadata `m` is decoded. -/
def sendLabelsFrom (env : Env) (m : LabelMetadata) (srcUrl dstUrl : String) (s : Sys) :
    Outcome Unit :=
  let minIndex := m.Extended.MinIndex
  let maxIndex := m.Extended.MaxIndex
  let blockSize := m.Extended.BlockSize
  let s :=
    if blockSize.i0 ≠ blockSize.i1 then
      printf s ("Can\x27t handle non-cubic block sizes: " ++ fmtInt3 blockSize ++ "\n")
    else s
  let s := printf s ("MinIndex: " ++ fmtInt3 minIndex ++ "\n")
  let s := printf s ("MaxIndex: " ++ fmtInt3 maxIndex ++ "\n")
  let s := printf s ("Strips per layer: " ++ toString (strips m.Extended) ++ "\n")
  sendLayers env m.Extended srcUrl dstUrl (maxIndex.i2 - minIndex.i2 + 1).toNat minIndex.i2 s

/-- Go `sendLabels` with its arithmetic on exact integers; `sendLabels64` is the program
as it runs. The arguments `src` and `dst` are unused, as in the source. -/
def sendLabels (env : Env) (_src _dst : Metadata) (srcUrl dstUrl : String) (s : Sys) :
    Outcome Unit :=
  let infoUrl := srcUrl ++ "/info"
  match httpGet env infoUrl s with
  | (.error err, s) => .exit 1 (printf s ("Error on getting metadata: " ++ err ++ "\n"))
  | (.response resp, s) =>
    if resp.StatusCode ≠ 200 then
      .exit 1 (printf s ("Bad status on getting metadata: " ++ toString resp.StatusCode ++ "\n"))
    else
      match resp.Body with
      | .broken err => .exit 1 (printf s ("Could not read metadata: " ++ err ++ "\n"))
      | .data metadata =>
        match env.unmarshalLabelMetadata metadata with
        | .error err => .exit 1 (printf s ("Error parsing label metadata: " ++ err ++ "\n"))
        | .ok m => sendLabelsFrom env m srcUrl dstUrl s

/-! ## `sendLabels` as the program runs it, on 64-bit integers -/

/-- The inner loop `for n := 0; n < strips; n++` (lines 113-149). -/
def sendStrips64 (env : Env) (g : LabelExtended) (srcUrl dstUrl : String) (z oz : Int) :
    Nat → Int → Int → Sys → Outcome Unit
  | 0, n, _, s => if n < strips64 g then .outOfFuel else .ok () s
  | fuel + 1, n, by0, s =>
    if n < strips64 g then
      if by0 > g.MaxIndex.i1 then .ok () s
      else
        match transferStrip env srcUrl dstUrl (stripAt64 g z oz n by0) s with
        | .ok _ s =>
          sendStrips64 env g srcUrl dstUrl z oz fuel (wrap64 (n + 1))
            (wrap64 (by0 + byPerStrip64 g)) s
        | .exit code s => .exit code s
        | .outOfFuel => .outOfFuel
    else .ok () s

/-- The outer loop `for z := minIndex[2]; z <= maxIndex[2]; z++` (lines 110-150), for at
most `fuel` passes. -/
def sendLayers64 (env : Env) (g : LabelExtended) (srcUrl dstUrl : String) :
    Nat → Int → Sys → Outcome Unit
  | 0, z, s => if z ≤ g.MaxIndex.i2 then .outOfFuel else .ok () s
  | fuel + 1, z, s =>
    if z ≤ g.MaxIndex.i2 then
      match sendStrips64 env g srcUrl dstUrl z (wrap64 (z * g.BlockSize.i2))
          (strips64 g).toNat 0 g.MinIndex.i1 s with
      | .ok _ s => sendLayers64 env g srcUrl dstUrl fuel (wrap64 (z + 1)) s
      | .exit code s => .exit code s
      | .outOfFuel => .outOfFuel
    else .ok () s

/-- Lines 83-109 and the two loops: what `sendLabels` does once the label metadata `m`
is decoded. -/
def sendLabelsFrom64 (fuel : Nat) (env : Env) (m : LabelMetadata) (srcUrl dstUrl : String)
    (s : Sys) : Outcome Unit :=
  let minIndex := m.Extended.MinIndex
  let maxIndex := m.Extended.MaxIndex
  let blockSize := m.Extended.BlockSize
  let s :=
    if blockSize.i0 ≠ blockSize.i1 then
      printf s ("Can\x27t handle non-cubic block sizes: " ++ fmtInt3 blockSize ++ "\n")
    else s
  let s := printf s ("MinIndex: " ++ fmtInt3 minIndex ++ "\n")
  let s := printf s ("MaxIndex: " ++ fmtInt3 maxIndex ++ "\n")
  let s := printf s ("Strips per layer: " ++ toString (strips64 m.Extended) ++ "\n")
  sendLayers64 env m.Extended srcUrl dstUrl fuel minIndex.i2 s

/-- Go `sendLabels`, for at most `fuel` passes of the outer loop. The arguments `src`
and `dst` are unused, as in the source. -/
def sendLabels64 (fuel : Nat) (env : Env) (_src _dst : Metadata) (srcUrl dstUrl : String)
    (s : Sys) : Outcome Unit :=
  let infoUrl := srcUrl ++ "/info"
  match httpGet env infoUrl s with
  | (.error err, s) => .exit 1 (printf s ("Error on getting metadata: " ++ err ++ "\n"))
  | (.response resp, s) =>
    if resp.StatusCode ≠ 200 then
      .exit 1 (printf s ("Bad status on getting metadata: " ++ toString resp.StatusCode ++ "\n"))
    else
      match resp.Body with
      | .broken err => .exit 1 (printf s ("Could not read metadata: " ++ err ++ "\n"))
      | .data metadata =>
        match env.unmarshalLabelMetadata metadata with
        | .error err => .exit 1 (printf s ("Error parsing label metadata: " ++ err ++ "\n"))
        | .ok m => sendLabelsFrom64 fuel env m srcUrl dstUrl s

/-- The strips built by the first `fuel` passes of the outer loop, from layer `z` on. -/
def layerPrefix64 (g : LabelExtended) : Nat → Int → List Strip
  | 0, _ => []
  | fuel + 1, z =>
    if z ≤ g.MaxIndex.i2 then
      (layerStrips64 g z).getD [] ++ layerPrefix64 g fuel (wrap64 (z + 1))
    else []

/-- Whether the outer loop, started at layer `z`, has ended within `fuel` passes. -/
def layerDone64 (g : LabelExtended) : Nat → Int → Bool
  | 0, z => decide (¬ z ≤ g.MaxIndex.i2)
  | fuel + 1, z => if z ≤ g.MaxIndex.i2 then layerDone64 g fuel (wrap64 (z + 1)) else true

/-- The strips built by the first `fuel` passes of the outer loop of `sendLabels`. -/
def planPrefix64 (g : LabelExtended) (fuel : Nat) : List Strip :=
  layerPrefix64 g fuel g.MinIndex.i2

/-- Number of passes of the outer loop when `z++` does not wrap. -/
def layerCount (g : LabelExtended) : Nat := (g.MaxIndex.i2 - g.MinIndex.i2 + 1).toNat

/-- The outcome of a loop cut off by fuel: a normal end counts only if the loop had
ended. -/
def Outcome.orFuel (o : Outcome Unit) (done : Bool) : Outcome Unit :=
  match o with
  | .ok _ s => if done then .ok () s else .outOfFuel
  | .exit code s => .exit code s
  | .outOfFuel => .outOfFuel

/-! ## `sendROI` (lines 153-175) -/

/-- Go `sendROI`. -/
def sendROI (env : Env) (_src _dst : Metadata) (srcUrl dstUrl : String) (s : Sys) :
    Outcome Unit :=
  let url := srcUrl ++ "/roi"
  let url2 := dstUrl ++ "/roi"
  let s := printf s ("Transfering: " ++ url ++ " -> " ++ url2 ++ "\n")
  match httpGet env url s with
  | (.error err, s) => .exit 1 (printf s ("Receive error: " ++ err ++ "\n"))
  | (.response resp, s) =>
    if resp.StatusCode ≠ 200 ∧ resp.StatusCode ≠ 206 then
      .exit 1 (printf s ("Bad status on receiving data: " ++ toString resp.StatusCode ++ "\n"))
    else
      match httpPost env url2 "application/json" resp.Body s with
      | (.error err, s) => .exit 1 (printf s ("Transmit error: " ++ err ++ "\n"))
      | (.response resp2, s) =>
        if resp2.StatusCode ≠ 200 then
          .exit 1 (printf s ("Bad status on sending data: " ++ toString resp2.StatusCode ++ "\n"))
        else .ok () s

/-! ## `transferData` (lines 177-208) -/

/-- Go `transferData`. Its `labels64` branch hands over to `sendLabels` on exact
integers; the statements about `transferData` concern the branches that end before any
label transfer starts. -/
def transferData (env : Env) (src dst : String) (s : Sys) : Outcome Unit :=
  match getMetadata env src s with
  | .exit code s => .exit code s
  | .outOfFuel => .outOfFuel
  | .ok srcMetadata s =>
    match getMetadata env dst s with
    | .exit code s => .exit code s
    | .outOfFuel => .outOfFuel
    | .ok dstMetadata s =>
      let srctype := srcMetadata.Base.TypeName
      let dsttype := dstMetadata.Base.TypeName
      if srctype = "grayscale8" ∨ srctype = "uint8blk" then
        if dsttype ≠ "uint8blk" then
          .exit 1 (printf s ("Can\x27t transfer " ++ srctype ++ " to " ++ dsttype
            ++ ", need uint8blk destination\n"))
        else .ok () s
      else if srctype = "labels64" then
        if dsttype ≠ "labelblk" then
          .exit 1 (printf s ("Can\x27t transfer " ++ srctype ++ " to " ++ dsttype
            ++ ", need labelblk destination\n"))
        else sendLabels env srcMetadata dstMetadata src dst s
      else if srctype = "roi" then
        if dsttype ≠ "roi" then
          .exit 1 (printf s ("Can\x27t transfer " ++ srctype ++ " to " ++ dsttype
            ++ ", need roi destination\n"))
        else sendROI env srcMetadata dstMetadata src dst s
      else
        .exit 1 (printf s ("Cannot handle source data type " ++ srcMetadata.Base.TypeName ++ "\n"))

/-! ## Vocabulary of the statements -/

/-- A valid geometry: `MinIndex[i] <= MaxIndex[i]` on each axis and positive block sizes. -/
def Valid (g : LabelExtended) : Prop :=
  g.MinIndex.i0 ≤ g.MaxIndex.i0 ∧ g.MinIndex.i1 ≤ g.MaxIndex.i1 ∧
  g.MinIndex.i2 ≤ g.MaxIndex.i2 ∧
  0 < g.BlockSize.i0 ∧ 0 < g.BlockSize.i1 ∧ 0 < g.BlockSize.i2

instance (g : LabelExtended) : Decidable (Valid g) := by
  unfold Valid; infer_instance

/-- The strip with counter `n` of layer `z` in closed form: band `n` of width
`byPerStrip`, starting at block row `MinIndex[1] + n * byPerStrip`. -/
def bandStrip (g : LabelExtended) (z n : Int) : Strip :=
  { z := z, n := n,
    by0 := g.MinIndex.i1 + n * byPerStrip g,
    by1 := g.MinIndex.i1 + n * byPerStrip g + byPerStrip g - 1,
    vx := vx g, vy := byPerStrip g * g.BlockSize.i1, vz := vz g,
    ox := ox g, oy := (g.MinIndex.i1 + n * byPerStrip g) * g.BlockSize.i1,
    oz := z * g.BlockSize.i2 }

/-- The bands `0 .. strips - 1` of layer `z`, in ascending order. -/
def bandLayer (g : LabelExtended) (z : Int) : List Strip :=
  (List.range (strips g).toNat).map (fun (k : Nat) => bandStrip g z (k : Int))

/-- The layers `MinIndex[2] .. MaxIndex[2]` in ascending order, each with its bands. -/
def bandPlan (g : LabelExtended) : List Strip :=
  (List.range (g.MaxIndex.i2 - g.MinIndex.i2 + 1).toNat).flatMap
    (fun (k : Nat) => bandLayer g (g.MinIndex.i2 + (k : Int)))

/-- Block row `r` lies in the range `by0 .. by1` of strip `st`. -/
def Strip.covers (st : Strip) (r : Int) : Prop := st.by0 ≤ r ∧ r ≤ st.by1

instance (st : Strip) (r : Int) : Decidable (st.covers r) := by
  unfold Strip.covers; infer_instance

/-- Payload of a strip in bytes, at 8 bytes per voxel. -/
def Strip.bytes (st : Strip) : Int := st.vx * st.vy * st.vz * 8

/-- The exchange succeeded: a response arrived and its status is 200. -/
def HttpResult.succeeds : HttpResult → Prop
  | .response resp => resp.StatusCode = 200
  | .error _ => False

instance (r : HttpResult) : Decidable r.succeeds := by
  cases r <;> unfold HttpResult.succeeds <;> infer_instance

/-- The exchange returned a response whose status is `code`, and `code` is not 200. -/
def HttpResult.badStatus (r : HttpResult) (code : Int) : Prop :=
  code ≠ 200 ∧ ∃ body, r = .response { StatusCode := code, Body := body }

/-- The two requests of one strip: the read from the source, then the write to the
destination. -/
def requestPair (srcUrl dstUrl : String) (st : Strip) : List (String × String) :=
  [("GET", rawUrl srcUrl st), ("POST", rawUrl dstUrl st)]

/-- Fail-stop transfer of a list of strips in list order: the first exchange that fails
ends the process. -/
def runPlan (env : Env) (srcUrl dstUrl : String) : List Strip → Sys → Outcome Unit
  | [], s => .ok () s
  | st :: rest, s =>
    match transferStrip env srcUrl dstUrl st s with
    | .ok _ s => runPlan env srcUrl dstUrl rest s
    | .exit code s => .exit code s
    | .outOfFuel => .outOfFuel

/-- The single strip of an unsplit layer `z`: all block rows
`MinIndex[1] .. MaxIndex[1]` and the whole X range. -/
def fullStrip (g : LabelExtended) (z : Int) : Strip :=
  { z := z, n := 0,
    by0 := g.MinIndex.i1, by1 := g.MaxIndex.i1,
    vx := nx g * g.BlockSize.i0, vy := ny g * g.BlockSize.i1, vz := g.BlockSize.i2,
    ox := g.MinIndex.i0 * g.BlockSize.i0, oy := g.MinIndex.i1 * g.BlockSize.i1,
    oz := z * g.BlockSize.i2 }

/-- The metadata fetch of `sendLabels` from state `s` answers 200 with a body that
decodes to `m`. -/
def InfoDecodes (env : Env) (s : Sys) (m : LabelMetadata) : Prop :=
  ∃ text, env.http s.log.length = .response { StatusCode := 200, Body := .data text } ∧
    env.unmarshalLabelMetadata text = .ok m

/-- A run of `sendLabels` from state `s` in which nothing fails: the metadata fetch
answers 200 with a body that decodes to `m`, and every later exchange succeeds. -/
def AllSucceed (env : Env) (s : Sys) (m : LabelMetadata) : Prop :=
  InfoDecodes env s m ∧ ∀ j, (env.http (s.log.length + 1 + j)).succeeds

/-- The compatibility table of `transferData`: the four pairs of source and destination
type name for which a transfer is attempted. -/
def Compatible (srctype dsttype : String) : Prop :=
  (srctype = "grayscale8" ∧ dsttype = "uint8blk") ∨
  (srctype = "uint8blk" ∧ dsttype = "uint8blk") ∨
  (srctype = "labels64" ∧ dsttype = "labelblk") ∨
  (srctype = "roi" ∧ dsttype = "roi")

instance (srctype dsttype : String) : Decidable (Compatible srctype dsttype) := by
  unfold Compatible; infer_instance

/-- Both `/info` reads of `transferData` from state `s` answer 200 and decode: the
source descriptor is `sm`, the destination descriptor is `dm`. -/
def Resolves (env : Env) (s : Sys) (sm dm : Metadata) : Prop :=
  ∃ t1 t2,
    env.http s.log.length = .response { StatusCode := 200, Body := .data t1 } ∧
    env.unmarshalMetadata t1 = .ok sm ∧
    env.http (s.log.length + 1) = .response { StatusCode := 200, Body := .data t2 } ∧
    env.unmarshalMetadata t2 = .ok dm

/-- The request sent by `http.Get(url)`. -/
def getRequest (url : String) : Request :=
  { method := "GET", url := url, contentType := "", body := none }

/-- Number of requests with method `method` in a list of (method, URL) pairs. -/
def countMethod (method : String) (l : List (String × String)) : Nat :=
  l.countP (fun a => a.1 = method)

/-- The address part of a raw request as the specification words it: the axis tag
`0_1_2`, then size `(nx*Bx, (by1-by0+1)*By, Bz)` and origin `(MinIndex[0]*Bx, by0*By, z*Bz)`
in voxels, for block rows `by0 .. by1` of layer `z`. -/
def addressSuffix (g : LabelExtended) (z by0 by1 : Int) : String :=
  "/raw/0_1_2/" ++ toString (nx g * g.BlockSize.i0) ++ "_"
    ++ toString ((by1 - by0 + 1) * g.BlockSize.i1) ++ "_" ++ toString g.BlockSize.i2
    ++ "/" ++ toString (g.MinIndex.i0 * g.BlockSize.i0) ++ "_"
    ++ toString (by0 * g.BlockSize.i1) ++ "_" ++ toString (z * g.BlockSize.i2)

/-- The order in which strips are transferred: an earlier strip `a` lies in a lower
layer than a later strip `b`, or in the same layer with a smaller counter and a band
origin that is not larger, and smaller as soon as the band width is positive. -/
def TransferredBefore (g : LabelExtended) (a b : Strip) : Prop :=
  a.z < b.z ∨
  (a.z = b.z ∧ a.n < b.n ∧ a.by0 ≤ b.by0 ∧ (0 < byPerStrip g → a.by0 < b.by0))

/-- Method and URL of the requests sent by the time a call ended, oldest first. -/
def Outcome.requests {α : Type} : Outcome α → List (String × String)
  | .ok _ s => s.log.map Request.addr
  | .exit _ s => s.log.map Request.addr
  | .outOfFuel => []

/-- The call returned normally. -/
def Outcome.returned {α : Type} : Outcome α → Bool
  | .ok _ _ => true
  | _ => false

/-! ## Concrete inputs -/

/-- A descriptor with the given type name. -/
def baseOf (typeName : String) : BaseMetadata :=
  { TypeName := typeName, TypeURL := "", TypeVersion := "", Name := "", RepoUUID := "",
    Compression := "", Checksum := "", Persistence := "", Versioned := true }

/-- The empty initial state. -/
def sys0 : Sys := { log := [], out := [] }

/-- Geometry of the spec's first engine scenario. -/
def geomSmall : LabelExtended :=
  { BlockSize := ⟨32, 32, 32⟩, MinIndex := ⟨0, 0, 0⟩, MaxIndex := ⟨1, 1, 0⟩ }

/-- A one-row layer of 26,214,400,000 bytes: fourteen strips, band width zero. -/
def geomWide : LabelExtended :=
  { BlockSize := ⟨32, 32, 32⟩, MinIndex := ⟨0, 0, 0⟩, MaxIndex := ⟨99999, 0, 0⟩ }

/-- A layer of exactly 2,500,000,000 bytes: 25 x 100 blocks of 50 x 50 x 50 voxels. -/
def geomSplit : LabelExtended :=
  { BlockSize := ⟨50, 50, 50⟩, MinIndex := ⟨0, 0, 0⟩, MaxIndex := ⟨24, 99, 0⟩ }

/-- Label metadata with geometry `g`. -/
def labelsOf (g : LabelExtended) : LabelMetadata :=
  { Base := baseOf "labels64", Extended := g }

/-- A world in which every exchange answers 200 and the label metadata decodes to
geometry `g`. -/
def envOK (g : LabelExtended) : Env :=
  { http := fun _ => .response { StatusCode := 200, Body := .data "payload" },
    unmarshalMetadata := fun _ => .ok { Base := baseOf "labels64", Extended := "" },
    unmarshalLabelMetadata := fun _ => .ok (labelsOf g) }

/-- Three block rows split into two bands of one row: a layer of 3,000,000,000 bytes. -/
def geomGap : LabelExtended :=
  { BlockSize := ⟨50, 50, 50⟩, MinIndex := ⟨0, 0, 0⟩, MaxIndex := ⟨999, 2, 0⟩ }

/-- A world in which every exchange answers 200, the first body decodes to a descriptor
of type `srctype` and every other body to one of type `dsttype`. -/
def envTypes (srctype dsttype : String) : Env :=
  { http := fun k =>
      .response { StatusCode := 200, Body := .data (if k = 0 then "source" else "destination") },
    unmarshalMetadata := fun text =>
      .ok { Base := baseOf (if text = "source" then srctype else dsttype), Extended := "" },
    unmarshalLabelMetadata := fun _ => .ok (labelsOf geomSmall) }

/-- A world that decodes the label metadata to geometry `g` and answers 200 to every
exchange except exchange number `bad`, which it answers with status `code`. -/
def envFailAt (g : LabelExtended) (bad : Nat) (code : Int) : Env :=
  { http := fun k =>
      if k = bad then .response { StatusCode := code, Body := .data "" }
      else .response { StatusCode := 200, Body := .data "payload" },
    unmarshalMetadata := fun _ => .ok { Base := baseOf "labels64", Extended := "" },
    unmarshalLabelMetadata := fun _ => .ok (labelsOf g) }

/-- One block whose layer index is the largest 64-bit integer: `z++` wraps. -/
def geomZWrap : LabelExtended :=
  { BlockSize := ⟨1, 1, 1⟩, MinIndex := ⟨0, 0, 9223372036854775807⟩,
    MaxIndex := ⟨0, 0, 9223372036854775807⟩ }

/-- A layer of exactly 2^64 bytes: 8388608 x 8388608 blocks of 32 voxels. -/
def geomWrapSize : LabelExtended :=
  { BlockSize := ⟨32, 32, 32⟩, MinIndex := ⟨0, 0, 0⟩, MaxIndex := ⟨8388607, 8388607, 0⟩ }

/-- One block at X index 2^62 with X block size 4: the X origin is 2^64 voxels. -/
def geomXWrap : LabelExtended :=
  { BlockSize := ⟨4, 1, 1⟩, MinIndex := ⟨4611686018427387904, 0, 0⟩,
    MaxIndex := ⟨4611686018427387904, 0, 0⟩ }

/-- Two block rows in a layer of 2^64 + 2,500,448,384 bytes. -/
def geomWrapTwo : LabelExtended :=
  { BlockSize := ⟨50, 50, 50⟩, MinIndex := ⟨0, 0, 0⟩, MaxIndex := ⟨9223372038104, 1, 0⟩ }

/-! ## Arithmetic of the strip count and the band width -/

theorem strips_pos (g : LabelExtended) : 1 ≤ strips g := by
  unfold strips
  split
  · next h =>
    have h0 : (0 : Int) ≤ (vx g * vy g * vz g * 8).tdiv 2000000000 :=
      Int.tdiv_nonneg (by omega) (by decide)
    omega
  · exact le_refl 1

theorem ny_pos {g : LabelExtended} (hg : Valid g) : 1 ≤ ny g := by
  obtain ⟨-, h1, -⟩ := hg
  unfold ny; omega

theorem nx_pos {g : LabelExtended} (hg : Valid g) : 1 ≤ nx g := by
  obtain ⟨h0, -⟩ := hg
  unfold nx; omega

theorem byPerStrip_eq_ediv {g : LabelExtended} (hg : Valid g) :
    byPerStrip g = ny g / strips g := by
  have h1 := ny_pos hg
  have h2 := strips_pos g
  exact Int.tdiv_eq_ediv (by omega) (by omega)

theorem byPerStrip_nonneg {g : LabelExtended} (hg : Valid g) : 0 ≤ byPerStrip g := by
  have h1 := ny_pos hg
  have h2 := strips_pos g
  exact Int.tdiv_nonneg (by omega) (by omega)

theorem strips_mul_byPerStrip_le {g : LabelExtended} (hg : Valid g) :
    strips g * byPerStrip g ≤ ny g := by
  have h2 := strips_pos g
  rw [byPerStrip_eq_ediv hg]
  exact Int.mul_ediv_self_le (by omega)

/-- While the counter is below `strips`, the next band still ends inside the layer. -/
theorem band_end_le {g : LabelExtended} (hg : Valid g) {n : Int} (hn : n < strips g) :
    (n + 1) * byPerStrip g ≤ ny g := by
  have h1 := byPerStrip_nonneg hg
  have h2 := strips_mul_byPerStrip_le hg
  have h3 : (n + 1) * byPerStrip g ≤ strips g * byPerStrip g :=
    mul_le_mul_of_nonneg_right (by omega) h1
  omega

/-- While the counter is below `strips`, the band starts inside the layer. -/
theorem band_start_lt {g : LabelExtended} (hg : Valid g) {n : Int} (hn : n < strips g) :
    n * byPerStrip g < ny g := by
  have h1 := byPerStrip_nonneg hg
  have h2 := band_end_le hg hn
  have h3 := ny_pos hg
  have h4 : (n + 1) * byPerStrip g = n * byPerStrip g + byPerStrip g := by ring
  rcases lt_or_ge 0 (byPerStrip g) with h | h
  · omega
  · have h5 : byPerStrip g = 0 := by omega
    rw [h5]; simp; omega

/-! ## The loops in closed form -/

theorem stripAt_eq_bandStrip {g : LabelExtended} (hg : Valid g) (z : Int) {n : Int}
    (hn : n < strips g) :
    stripAt g z (z * g.BlockSize.i2) n (g.MinIndex.i1 + n * byPerStrip g) = bandStrip g z n := by
  have h2 := band_end_le hg hn
  have h4 : (n + 1) * byPerStrip g = n * byPerStrip g + byPerStrip g := by ring
  have hny : ny g = g.MaxIndex.i1 - g.MinIndex.i1 + 1 := rfl
  have hc : ¬ (g.MinIndex.i1 + n * byPerStrip g + byPerStrip g - 1 > g.MaxIndex.i1) := by
    omega
  unfold stripAt bandStrip
  simp only [hc, if_false]
  congr 1
  ring

theorem stripLoop_eq {g : LabelExtended} (hg : Valid g) (z : Int) :
    ∀ (fuel : Nat) (n : Int), 0 ≤ n → n + fuel = strips g →
      stripLoop g z (z * g.BlockSize.i2) fuel n (g.MinIndex.i1 + n * byPerStrip g)
        = some ((List.range fuel).map (fun (k : Nat) => bandStrip g z (n + (k : Int)))) := by
  intro fuel
  induction fuel with
  | zero =>
    intro n _ hfuel
    have : ¬ n < strips g := by simp at hfuel; omega
    simp [stripLoop, this]
  | succ fuel ih =>
    intro n hn hfuel
    have hlt : n < strips g := by push_cast at hfuel; omega
    have hstart := band_start_lt hg hlt
    have hny : ny g = g.MaxIndex.i1 - g.MinIndex.i1 + 1 := rfl
    have hb : ¬ (g.MinIndex.i1 + n * byPerStrip g > g.MaxIndex.i1) := by omega
    have hnext : g.MinIndex.i1 + n * byPerStrip g + byPerStrip g
        = g.MinIndex.i1 + (n + 1) * byPerStrip g := by ring
    have hrec := ih (n + 1) (by omega) (by push_cast at hfuel; omega)
    rw [stripLoop]
    simp only [hlt, hb, if_true, if_false, hnext, hrec]
    rw [stripAt_eq_bandStrip hg z hlt, List.range_succ_eq_map, List.map_cons, List.map_map]
    simp only [Nat.cast_zero, add_zero, Option.some.injEq, List.cons.injEq, true_and]
    apply List.map_congr_left
    intro k _
    simp only [Function.comp, Nat.succ_eq_add_one, Nat.cast_add, Nat.cast_one]
    congr 1
    ring

theorem layerStrips_eq {g : LabelExtended} (hg : Valid g) (z : Int) :
    layerStrips g z = some (bandLayer g z) := by
  have h := stripLoop_eq hg z (strips g).toNat 0 (le_refl 0)
    (by have := strips_pos g; rw [Int.toNat_of_nonneg (by omega)]; simp)
  unfold layerStrips bandLayer
  simpa using h

theorem layerLoop_eq {g : LabelExtended} (hg : Valid g) :
    ∀ (fuel : Nat) (z : Int), z + fuel = g.MaxIndex.i2 + 1 →
      layerLoop g fuel z
        = some ((List.range fuel).flatMap (fun (k : Nat) => bandLayer g (z + (k : Int)))) := by
  intro fuel
  induction fuel with
  | zero =>
    intro z hz
    have : ¬ z ≤ g.MaxIndex.i2 := by simp at hz; omega
    simp [layerLoop, this]
  | succ fuel ih =>
    intro z hz
    have hle : z ≤ g.MaxIndex.i2 := by push_cast at hz; omega
    have hrec := ih (z + 1) (by push_cast at hz; omega)
    rw [layerLoop]
    simp only [hle, if_true, layerStrips_eq hg, hrec]
    rw [List.range_succ_eq_map, List.flatMap_cons]
    simp only [Nat.cast_zero, add_zero, Option.some.injEq, List.append_cancel_left_eq]
    rw [List.flatMap_def, List.flatMap_def, List.map_map]
    congr 1
    apply List.map_congr_left
    intro k _
    simp only [Function.comp, Nat.succ_eq_add_one, Nat.cast_add, Nat.cast_one]
    congr 1
    ring

/-- The loops of `sendLabels` terminate on every valid geometry and visit exactly the
bands of the closed form, layer by layer. -/
theorem stripPlan_eq {g : LabelExtended} (hg : Valid g) : stripPlan g = some (bandPlan g) := by
  have hz : g.MinIndex.i2 ≤ g.MaxIndex.i2 := hg.2.2.1
  have h := layerLoop_eq hg (g.MaxIndex.i2 - g.MinIndex.i2 + 1).toNat g.MinIndex.i2
    (by rw [Int.toNat_of_nonneg (by omega)]; ring)
  exact h

/-! ## Properties of the bands of one layer -/

theorem mem_bandLayer {g : LabelExtended} {z : Int} {st : Strip} :
    st ∈ bandLayer g z ↔ ∃ n : Int, 0 ≤ n ∧ n < strips g ∧ st = bandStrip g z n := by
  have hs := strips_pos g
  unfold bandLayer
  simp only [List.mem_map, List.mem_range]
  constructor
  · rintro ⟨k, hk, rfl⟩
    exact ⟨(k : Int), by omega, by omega, rfl⟩
  · rintro ⟨n, h0, h1, rfl⟩
    refine ⟨n.toNat, by omega, ?_⟩
    rw [Int.toNat_of_nonneg h0]

theorem mem_bandPlan {g : LabelExtended} {st : Strip} :
    st ∈ bandPlan g ↔ ∃ z : Int, g.MinIndex.i2 ≤ z ∧ z ≤ g.MaxIndex.i2 ∧ st ∈ bandLayer g z := by
  unfold bandPlan
  simp only [List.mem_flatMap, List.mem_range]
  constructor
  · rintro ⟨k, hk, h⟩
    exact ⟨g.MinIndex.i2 + (k : Int), by omega, by omega, h⟩
  · rintro ⟨z, h0, h1, h⟩
    refine ⟨(z - g.MinIndex.i2).toNat, by omega, ?_⟩
    rw [Int.toNat_of_nonneg (by omega)]
    have : g.MinIndex.i2 + (z - g.MinIndex.i2) = z := by ring
    rw [this]; exact h

theorem length_bandLayer (g : LabelExtended) (z : Int) :
    ((bandLayer g z).length : Int) = strips g := by
  have hs := strips_pos g
  unfold bandLayer
  rw [List.length_map, List.length_range, Int.toNat_of_nonneg (by omega)]

/-- Without splitting there is one band, as wide as the layer. -/
theorem strips_eq_one {g : LabelExtended} (h : vx g * vy g * vz g * 8 ≤ 2000000000) :
    strips g = 1 ∧ byPerStrip g = ny g := by
  have h1 : strips g = 1 := by
    unfold strips
    rw [if_neg (by omega)]
  refine ⟨h1, ?_⟩
  unfold byPerStrip
  rw [h1]
  exact Int.tdiv_one _

/-- With splitting the strip count is `floor(size / 2000000000) + 1`. -/
theorem strips_eq_split {g : LabelExtended} (h : vx g * vy g * vz g * 8 > 2000000000) :
    strips g = (vx g * vy g * vz g * 8) / 2000000000 + 1 := by
  unfold strips
  rw [if_pos h, Int.tdiv_eq_ediv (by omega) (by decide)]

/-- The payload of one band never exceeds the byte ceiling. -/
theorem band_bytes_le {g : LabelExtended} (hg : Valid g) :
    vx g * (byPerStrip g * g.BlockSize.i1) * vz g * 8 ≤ 2000000000 := by
  rcases le_or_lt (vx g * vy g * vz g * 8) 2000000000 with h | h
  · have h1 := (strips_eq_one h).2
    rw [h1]
    exact h
  · have hs := strips_eq_split h
    have hpos := strips_pos g
    have hlt : vx g * vy g * vz g * 8 < strips g * 2000000000 := by
      rw [hs]
      exact Int.lt_ediv_add_one_mul_self _ (by decide)
    have hle := strips_mul_byPerStrip_le hg
    have hnx := nx_pos hg
    obtain ⟨-, -, -, hbx, hby, hbz⟩ := hg
    have hK : 0 < nx g * g.BlockSize.i0 * g.BlockSize.i1 * g.BlockSize.i2 * 8 := by positivity
    have h1 : nx g * g.BlockSize.i0 * g.BlockSize.i1 * g.BlockSize.i2 * 8
          * (strips g * byPerStrip g)
        ≤ nx g * g.BlockSize.i0 * g.BlockSize.i1 * g.BlockSize.i2 * 8 * ny g :=
      mul_le_mul_of_nonneg_left hle (le_of_lt hK)
    have h2 : vx g * (byPerStrip g * g.BlockSize.i1) * vz g * 8 * strips g
        < 2000000000 * strips g := by
      have e1 : vx g * (byPerStrip g * g.BlockSize.i1) * vz g * 8 * strips g
          = nx g * g.BlockSize.i0 * g.BlockSize.i1 * g.BlockSize.i2 * 8
            * (strips g * byPerStrip g) := by
        unfold vx vz; ring
      have e2 : vx g * vy g * vz g * 8
          = nx g * g.BlockSize.i0 * g.BlockSize.i1 * g.BlockSize.i2 * 8 * ny g := by
        unfold vx vy vz; ring
      rw [e1]
      rw [e2] at hlt
      calc nx g * g.BlockSize.i0 * g.BlockSize.i1 * g.BlockSize.i2 * 8
              * (strips g * byPerStrip g)
          ≤ nx g * g.BlockSize.i0 * g.BlockSize.i1 * g.BlockSize.i2 * 8 * ny g := h1
        _ < strips g * 2000000000 := hlt
        _ = 2000000000 * strips g := by ring
    exact le_of_lt (lt_of_mul_lt_mul_right h2 (by omega))

/-- Two bands of one layer with different counters share no block row. -/
theorem bands_disjoint {g : LabelExtended} (hg : Valid g) (z : Int) {i j : Int} (hij : i < j)
    (r : Int) : ¬ ((bandStrip g z i).covers r ∧ (bandStrip g z j).covers r) := by
  have hb := byPerStrip_nonneg hg
  have h1 : (i + 1) * byPerStrip g ≤ j * byPerStrip g :=
    mul_le_mul_of_nonneg_right (by omega) hb
  have h2 : (i + 1) * byPerStrip g = i * byPerStrip g + byPerStrip g := by ring
  unfold Strip.covers bandStrip
  simp only
  omega

theorem bandLayer_pairwise_disjoint {g : LabelExtended} (hg : Valid g) (z : Int) :
    (bandLayer g z).Pairwise (fun a b => ∀ r, ¬ (a.covers r ∧ b.covers r)) := by
  unfold bandLayer
  rw [List.pairwise_map]
  refine List.Pairwise.imp ?_ (List.pairwise_lt_range _)
  intro a b hab r
  exact bands_disjoint hg z (by omega) r

/-- The block rows covered by the bands of one layer: the first
`strips * byPerStrip` rows of the layer. -/
theorem bandLayer_covers {g : LabelExtended} (hg : Valid g) (z r : Int) :
    (∃ st ∈ bandLayer g z, st.covers r) ↔
      (g.MinIndex.i1 ≤ r ∧ r ≤ g.MinIndex.i1 + strips g * byPerStrip g - 1) := by
  have hb := byPerStrip_nonneg hg
  have hs := strips_pos g
  constructor
  · rintro ⟨st, hst, hr⟩
    obtain ⟨n, h0, h1, rfl⟩ := mem_bandLayer.mp hst
    unfold Strip.covers bandStrip at hr
    simp only at hr
    have h2 : 0 ≤ n * byPerStrip g := mul_nonneg h0 hb
    have h3 : (n + 1) * byPerStrip g ≤ strips g * byPerStrip g :=
      mul_le_mul_of_nonneg_right (by omega) hb
    have h4 : (n + 1) * byPerStrip g = n * byPerStrip g + byPerStrip g := by ring
    omega
  · rintro ⟨h0, h1⟩
    have hbpos : 0 < byPerStrip g := by
      rcases lt_or_ge 0 (byPerStrip g) with h | h
      · exact h
      · have h5 : byPerStrip g = 0 := by omega
        rw [h5] at h1; simp at h1; omega
    have hq0 : 0 ≤ (r - g.MinIndex.i1) / byPerStrip g :=
      Int.ediv_nonneg (by omega) hb
    have hq1 : (r - g.MinIndex.i1) / byPerStrip g < strips g :=
      Int.ediv_lt_of_lt_mul hbpos (by omega)
    have hq2 := Int.mul_ediv_self_le (x := r - g.MinIndex.i1) (ne_of_gt hbpos)
    have hq3 := Int.lt_mul_ediv_self_add (x := r - g.MinIndex.i1) hbpos
    refine ⟨bandStrip g z ((r - g.MinIndex.i1) / byPerStrip g),
      mem_bandLayer.mpr ⟨_, hq0, hq1, rfl⟩, ?_⟩
    unfold Strip.covers bandStrip
    simp only
    have h6 : (r - g.MinIndex.i1) / byPerStrip g * byPerStrip g
        = byPerStrip g * ((r - g.MinIndex.i1) / byPerStrip g) := by ring
    omega

theorem transferStrip_ok (env : Env) (srcUrl dstUrl : String) (st : Strip) (s : Sys)
    (h1 : (env.http s.log.length).succeeds) (h2 : (env.http (s.log.length + 1)).succeeds) :
    ∃ s1, transferStrip env srcUrl dstUrl st s = .ok () s1 ∧
      s1.log.length = s.log.length + 2 ∧
      s1.log.map Request.addr = s.log.map Request.addr ++ requestPair srcUrl dstUrl st := by
  cases hr1 : env.http s.log.length with
  | error e => rw [hr1] at h1; exact absurd h1 (by simp [HttpResult.succeeds])
  | response r1 =>
    cases hr2 : env.http (s.log.length + 1) with
    | error e => rw [hr2] at h2; exact absurd h2 (by simp [HttpResult.succeeds])
    | response r2 =>
      rw [hr1] at h1
      rw [hr2] at h2
      have e1 : r1.StatusCode = 200 := h1
      have e2 : r2.StatusCode = 200 := h2
      refine ⟨⟨s.log ++ [{ method := "GET", url := rawUrl srcUrl st, contentType := "",
                            body := none }]
                    ++ [{ method := "POST", url := rawUrl dstUrl st,
                          contentType := "application/octet-stream", body := some r1.Body }],
                s.out ++ ["Transfering: " ++ rawUrl srcUrl st ++ " -> " ++ rawUrl dstUrl st
                            ++ "\n"]⟩, ?_, ?_, ?_⟩
      · simp only [transferStrip, httpGet, httpPost, printf, hr1, hr2, e1, e2,
          List.length_append, List.length_singleton, ne_eq, not_true_eq_false, if_false]
      · simp
      · simp [requestPair, Request.addr]

theorem transferStrip_read_bad (env : Env) (srcUrl dstUrl : String) (st : Strip) (s : Sys)
    (code : Int) (h1 : (env.http s.log.length).badStatus code) :
    ∃ s1, transferStrip env srcUrl dstUrl st s = .exit 1 s1 ∧
      s1.log.map Request.addr = s.log.map Request.addr ++ [("GET", rawUrl srcUrl st)] ∧
      s1.out.getLast? = some ("Bad status on receiving data: " ++ toString code ++ "\n") := by
  obtain ⟨hc, body, hr1⟩ := h1
  refine ⟨⟨s.log ++ [{ method := "GET", url := rawUrl srcUrl st, contentType := "",
                        body := none }],
            s.out ++ ["Transfering: " ++ rawUrl srcUrl st ++ " -> " ++ rawUrl dstUrl st ++ "\n"]
              ++ ["Bad status on receiving data: " ++ toString code ++ "\n"]⟩, ?_, ?_, ?_⟩
  · simp only [transferStrip, httpGet, printf, hr1, ne_eq, hc, not_false_eq_true, if_true]
  · simp [Request.addr]
  · simp

theorem transferStrip_write_bad (env : Env) (srcUrl dstUrl : String) (st : Strip) (s : Sys)
    (code : Int) (h1 : (env.http s.log.length).succeeds)
    (h2 : (env.http (s.log.length + 1)).badStatus code) :
    ∃ s1, transferStrip env srcUrl dstUrl st s = .exit 1 s1 ∧
      s1.log.map Request.addr = s.log.map Request.addr ++ requestPair srcUrl dstUrl st ∧
      s1.out.getLast? = some ("Bad status on sending data: " ++ toString code ++ "\n") := by
  obtain ⟨hc, body, hr2⟩ := h2
  cases hr1 : env.http s.log.length with
  | error e => rw [hr1] at h1; exact absurd h1 (by simp [HttpResult.succeeds])
  | response r1 =>
    rw [hr1] at h1
    have e1 : r1.StatusCode = 200 := h1
    refine ⟨⟨s.log ++ [{ method := "GET", url := rawUrl srcUrl st, contentType := "",
                          body := none }]
                  ++ [{ method := "POST", url := rawUrl dstUrl st,
                        contentType := "application/octet-stream", body := some r1.Body }],
              s.out ++ ["Transfering: " ++ rawUrl srcUrl st ++ " -> " ++ rawUrl dstUrl st
                          ++ "\n"]
                ++ ["Bad status on sending data: " ++ toString code ++ "\n"]⟩, ?_, ?_, ?_⟩
    · simp only [transferStrip, httpGet, httpPost, printf, hr1, hr2, e1, hc,
        List.length_append, List.length_singleton, ne_eq, not_true_eq_false,
        not_false_eq_true, if_false, if_true]
    · simp [requestPair, Request.addr]
    · simp

/-! ## The loops of `sendLabels` transfer the planned strips in order -/

theorem runPlan_append (env : Env) (srcUrl dstUrl : String) (l1 l2 : List Strip) :
    ∀ s, runPlan env srcUrl dstUrl (l1 ++ l2) s =
      match runPlan env srcUrl dstUrl l1 s with
      | .ok _ s1 => runPlan env srcUrl dstUrl l2 s1
      | .exit code s1 => .exit code s1
      | .outOfFuel => .outOfFuel := by
  induction l1 with
  | nil => intro s; rfl
  | cons st rest ih =>
    intro s
    simp only [List.cons_append, runPlan]
    cases transferStrip env srcUrl dstUrl st s with
    | ok a s1 => exact ih s1
    | exit code s1 => rfl
    | outOfFuel => rfl

theorem sendStrips_eq_runPlan (env : Env) (g : LabelExtended) (srcUrl dstUrl : String)
    (z oz : Int) :
    ∀ (fuel : Nat) (n by0 : Int) (l : List Strip) (s : Sys),
      stripLoop g z oz fuel n by0 = some l →
      sendStrips env g srcUrl dstUrl z oz fuel n by0 s = runPlan env srcUrl dstUrl l s := by
  intro fuel
  induction fuel with
  | zero =>
    intro n by0 l s h
    unfold stripLoop at h
    unfold sendStrips
    split at h
    · exact absurd h (by simp)
    · next hn =>
      simp only [Option.some.injEq] at h
      subst h
      simp [hn, runPlan]
  | succ fuel ih =>
    intro n by0 l s h
    unfold stripLoop at h
    unfold sendStrips
    split at h
    · next hn =>
      split at h
      · next hb =>
        simp only [Option.some.injEq] at h
        subst h
        simp [hn, hb, runPlan]
      · next hb =>
        cases hrec : stripLoop g z oz fuel (n + 1) (by0 + byPerStrip g) with
        | none => rw [hrec] at h; exact absurd h (by simp)
        | some rest =>
          rw [hrec] at h
          simp only [Option.some.injEq] at h
          subst h
          simp only [hn, hb, if_true, if_false, runPlan]
          cases transferStrip env srcUrl dstUrl (stripAt g z oz n by0) s with
          | ok a s1 => exact ih (n + 1) (by0 + byPerStrip g) rest s1 hrec
          | exit code s1 => rfl
          | outOfFuel => rfl
    · next hn =>
      simp only [Option.some.injEq] at h
      subst h
      simp [hn, runPlan]

theorem sendLayers_eq_runPlan (env : Env) (g : LabelExtended) (srcUrl dstUrl : String) :
    ∀ (fuel : Nat) (z : Int) (l : List Strip) (s : Sys),
      layerLoop g fuel z = some l →
      sendLayers env g srcUrl dstUrl fuel z s = runPlan env srcUrl dstUrl l s := by
  intro fuel
  induction fuel with
  | zero =>
    intro z l s h
    unfold layerLoop at h
    unfold sendLayers
    split at h
    · exact absurd h (by simp)
    · next hz =>
      simp only [Option.some.injEq] at h
      subst h
      simp [hz, runPlan]
  | succ fuel ih =>
    intro z l s h
    unfold layerLoop at h
    unfold sendLayers
    split at h
    · next hz =>
      cases hl : layerStrips g z with
      | none => rw [hl] at h; exact absurd h (by simp)
      | some l1 =>
        cases hrec : layerLoop g fuel (z + 1) with
        | none => rw [hl, hrec] at h; exact absurd h (by simp)
        | some rest =>
          rw [hl, hrec] at h
          simp only [Option.some.injEq] at h
          subst h
          simp only [hz, if_true]
          rw [runPlan_append, sendStrips_eq_runPlan env g srcUrl dstUrl z _ _ _ _ l1 s hl]
          cases runPlan env srcUrl dstUrl l1 s with
          | ok a s1 => exact ih (z + 1) rest s1 hrec
          | exit code s1 => rfl
          | outOfFuel => rfl
    · next hz =>
      simp only [Option.some.injEq] at h
      subst h
      simp [hz, runPlan]

/-! ## Runs of the strip loop -/

/-- If every exchange succeeds, all strips are transferred, in order, each read followed
at once by its write. -/
theorem runPlan_all_ok (env : Env) (srcUrl dstUrl : String) :
    ∀ (l : List Strip) (s : Sys),
      (∀ j, j < 2 * l.length → (env.http (s.log.length + j)).succeeds) →
      ∃ s1, runPlan env srcUrl dstUrl l s = .ok () s1 ∧
        s1.log.length = s.log.length + 2 * l.length ∧
        s1.log.map Request.addr
          = s.log.map Request.addr ++ l.flatMap (requestPair srcUrl dstUrl) := by
  intro l
  induction l with
  | nil =>
    intro s _
    exact ⟨s, rfl, by simp, by simp⟩
  | cons st rest ih =>
    intro s h
    have hlen : (st :: rest).length = rest.length + 1 := rfl
    obtain ⟨s1, e1, len1, log1⟩ := transferStrip_ok env srcUrl dstUrl st s
      (by simpa using h 0 (by omega)) (h 1 (by omega))
    obtain ⟨s2, e2, len2, log2⟩ := ih s1 (by
      intro j hj
      have := h (j + 2) (by omega)
      rw [len1]
      rwa [show s.log.length + (j + 2) = s.log.length + 2 + j by omega] at this)
    refine ⟨s2, ?_, ?_, ?_⟩
    · simp only [runPlan, e1]
      exact e2
    · rw [len2, len1, hlen]; omega
    · rw [log2, log1, List.flatMap_cons, List.append_assoc]

/-- Fail-stop on a read: when the strips before `st` succeed and the read of `st` comes
back with a bad status, the process exits with status 1 right after that read. -/
theorem runPlan_read_bad (env : Env) (srcUrl dstUrl : String) (pre : List Strip) (st : Strip)
    (post : List Strip) (s : Sys) (code : Int)
    (hpre : ∀ j, j < 2 * pre.length → (env.http (s.log.length + j)).succeeds)
    (hbad : (env.http (s.log.length + 2 * pre.length)).badStatus code) :
    ∃ s1, runPlan env srcUrl dstUrl (pre ++ st :: post) s = .exit 1 s1 ∧
      s1.log.map Request.addr
        = s.log.map Request.addr ++ pre.flatMap (requestPair srcUrl dstUrl)
            ++ [("GET", rawUrl srcUrl st)] ∧
      s1.out.getLast? = some ("Bad status on receiving data: " ++ toString code ++ "\n") := by
  obtain ⟨s1, e1, len1, log1⟩ := runPlan_all_ok env srcUrl dstUrl pre s hpre
  obtain ⟨s2, e2, log2, out2⟩ := transferStrip_read_bad env srcUrl dstUrl st s1 code
    (by rw [len1]; exact hbad)
  refine ⟨s2, ?_, ?_, out2⟩
  · rw [runPlan_append, e1]
    simp only [runPlan, e2]
  · rw [log2, log1]

/-- Fail-stop on a write: when the strips before `st` and the read of `st` succeed and
the write of `st` comes back with a bad status, the process exits with status 1 right
after that write. -/
theorem runPlan_write_bad (env : Env) (srcUrl dstUrl : String) (pre : List Strip) (st : Strip)
    (post : List Strip) (s : Sys) (code : Int)
    (hpre : ∀ j, j < 2 * pre.length + 1 → (env.http (s.log.length + j)).succeeds)
    (hbad : (env.http (s.log.length + 2 * pre.length + 1)).badStatus code) :
    ∃ s1, runPlan env srcUrl dstUrl (pre ++ st :: post) s = .exit 1 s1 ∧
      s1.log.map Request.addr
        = s.log.map Request.addr ++ pre.flatMap (requestPair srcUrl dstUrl)
            ++ requestPair srcUrl dstUrl st ∧
      s1.out.getLast? = some ("Bad status on sending data: " ++ toString code ++ "\n") := by
  obtain ⟨s1, e1, len1, log1⟩ := runPlan_all_ok env srcUrl dstUrl pre s
    (fun j hj => hpre j (by omega))
  obtain ⟨s2, e2, log2, out2⟩ := transferStrip_write_bad env srcUrl dstUrl st s1 code
    (by rw [len1]; exact hpre _ (by omega)) (by rw [len1]; exact hbad)
  refine ⟨s2, ?_, ?_, out2⟩
  · rw [runPlan_append, e1]
    simp only [runPlan, e2]
  · rw [log2, log1]

/-- The part of `sendLabels` after the decoding prints, sends nothing, and then transfers
the planned strips fail-stop. -/
theorem sendLabelsFrom_eq_runPlan (env : Env) (m : LabelMetadata) (srcUrl dstUrl : String)
    (s : Sys) (l : List Strip) (hplan : stripPlan m.Extended = some l) :
    ∃ s0, sendLabelsFrom env m srcUrl dstUrl s = runPlan env srcUrl dstUrl l s0 ∧
      s0.log = s.log := by
  unfold sendLabelsFrom
  refine ⟨_, sendLayers_eq_runPlan env m.Extended srcUrl dstUrl _ _ l _ hplan, ?_⟩
  simp only [printf]
  split <;> rfl

/-- Once the label metadata is fetched and decoded, `sendLabels` is the fail-stop
transfer of the planned strips; the fetch is the one request made before them. -/
theorem sendLabels_eq_runPlan (env : Env) (src dst : Metadata) (srcUrl dstUrl : String)
    (s : Sys) (text : String) (m : LabelMetadata) (l : List Strip)
    (hinfo : env.http s.log.length = .response { StatusCode := 200, Body := .data text })
    (hjson : env.unmarshalLabelMetadata text = .ok m)
    (hplan : stripPlan m.Extended = some l) :
    ∃ s0, sendLabels env src dst srcUrl dstUrl s = runPlan env srcUrl dstUrl l s0 ∧
      s0.log.length = s.log.length + 1 ∧
      s0.log.map Request.addr = s.log.map Request.addr ++ [("GET", srcUrl ++ "/info")] := by
  have h1 : sendLabels env src dst srcUrl dstUrl s
      = sendLabelsFrom env m srcUrl dstUrl
          { s with log := s.log ++ [{ method := "GET", url := srcUrl ++ "/info",
                                      contentType := "", body := none }] } := by
    simp only [sendLabels, httpGet, hinfo, hjson, ne_eq, not_true_eq_false, if_false]
  obtain ⟨s0, e0, log0⟩ := sendLabelsFrom_eq_runPlan env m srcUrl dstUrl
    { s with log := s.log ++ [{ method := "GET", url := srcUrl ++ "/info",
                                contentType := "", body := none }] } l hplan
  refine ⟨s0, by rw [h1, e0], ?_, ?_⟩
  · rw [log0]; simp
  · rw [log0]; simp [Request.addr]

theorem envOK_allSucceed (g : LabelExtended) (s : Sys) : AllSucceed (envOK g) s (labelsOf g) :=
  ⟨⟨"payload", rfl, rfl⟩, fun _ => rfl⟩

/-! ## Unsplit layers -/

theorem bandPlan_unsplit {g : LabelExtended}
    (hsize : vx g * vy g * vz g * 8 ≤ 2000000000) :
    bandPlan g = (List.range (g.MaxIndex.i2 - g.MinIndex.i2 + 1).toNat).map
      (fun (k : Nat) => fullStrip g (g.MinIndex.i2 + (k : Int))) ∧
    ∀ z, bandLayer g z = [fullStrip g z] := by
  obtain ⟨h1, h2⟩ := strips_eq_one hsize
  have hny : ny g = g.MaxIndex.i1 - g.MinIndex.i1 + 1 := rfl
  have hband : ∀ z, bandLayer g z = [fullStrip g z] := by
    intro z
    have hr : List.range (1 : Int).toNat = [0] := rfl
    unfold bandLayer
    rw [h1, hr]
    simp only [List.map_cons, List.map_nil, Nat.cast_zero, List.cons.injEq, and_true]
    unfold bandStrip fullStrip
    rw [h2]
    simp only [zero_mul, add_zero, vx, vz, ox, Strip.mk.injEq, true_and, and_true]
    rw [hny]
    ring
  refine ⟨?_, hband⟩
  unfold bandPlan
  simp only [hband]
  induction (List.range (g.MaxIndex.i2 - g.MinIndex.i2 + 1).toNat) with
  | nil => rfl
  | cons a rest ih => simp [List.flatMap_cons, ih]

/-! ## Split layers -/

theorem length_bandPlan (g : LabelExtended) :
    (bandPlan g).length
      = (g.MaxIndex.i2 - g.MinIndex.i2 + 1).toNat * (strips g).toNat := by
  have key : ∀ ks : List Nat,
      (ks.flatMap (fun (k : Nat) => bandLayer g (g.MinIndex.i2 + (k : Int)))).length
        = ks.length * (strips g).toNat := by
    intro ks
    induction ks with
    | nil => simp
    | cons a rest ih =>
      rw [List.flatMap_cons, List.length_append, ih]
      simp only [bandLayer, List.length_map, List.length_range, List.length_cons]
      ring
  unfold bandPlan
  rw [key, List.length_range]

/-! ## Every run sends only requests of planned strips -/

theorem transferStrip_cases (env : Env) (srcUrl dstUrl : String) (st : Strip) (s : Sys) :
    (∃ s1, transferStrip env srcUrl dstUrl st s = .ok () s1 ∧
      s1.log.length = s.log.length + 2 ∧
      s1.log.map Request.addr = s.log.map Request.addr ++ requestPair srcUrl dstUrl st) ∨
    (∃ s1 rest, transferStrip env srcUrl dstUrl st s = .exit 1 s1 ∧
      s1.log.map Request.addr = s.log.map Request.addr ++ rest ∧
      rest <+: requestPair srcUrl dstUrl st) := by
  unfold transferStrip
  simp only [httpGet, httpPost, printf]
  cases hr1 : env.http s.log.length with
  | error e =>
    right
    exact ⟨_, [("GET", rawUrl srcUrl st)], rfl, by simp [Request.addr],
      ⟨[("POST", rawUrl dstUrl st)], rfl⟩⟩
  | response r1 =>
    by_cases hc1 : r1.StatusCode = 200
    · simp only [hc1, ne_eq, not_true_eq_false, if_false, List.length_append,
        List.length_singleton]
      cases hr2 : env.http (s.log.length + 1) with
      | error e =>
        right
        exact ⟨_, requestPair srcUrl dstUrl st, rfl, by simp [Request.addr, requestPair],
          List.prefix_refl _⟩
      | response r2 =>
        by_cases hc2 : r2.StatusCode = 200
        · left
          simp only [hc2, ne_eq, not_true_eq_false, if_false]
          exact ⟨_, rfl, by simp, by simp [Request.addr, requestPair]⟩
        · right
          simp only [hc2, ne_eq, not_false_eq_true, if_true]
          exact ⟨_, requestPair srcUrl dstUrl st, rfl, by simp [Request.addr, requestPair],
            List.prefix_refl _⟩
    · right
      simp only [hc1, ne_eq, not_false_eq_true, if_true]
      exact ⟨_, [("GET", rawUrl srcUrl st)], rfl, by simp [Request.addr],
        ⟨[("POST", rawUrl dstUrl st)], rfl⟩⟩

/-- Whatever the network answers, the strip loop ends, either normally after all planned
requests or through `os.Exit(1)` after a prefix of them. -/
theorem runPlan_cases (env : Env) (srcUrl dstUrl : String) :
    ∀ (l : List Strip) (s : Sys),
      (∃ s1, runPlan env srcUrl dstUrl l s = .ok () s1 ∧
        s1.log.map Request.addr
          = s.log.map Request.addr ++ l.flatMap (requestPair srcUrl dstUrl)) ∨
      (∃ s1 rest, runPlan env srcUrl dstUrl l s = .exit 1 s1 ∧
        s1.log.map Request.addr = s.log.map Request.addr ++ rest ∧
        rest <+: l.flatMap (requestPair srcUrl dstUrl)) := by
  intro l
  induction l with
  | nil =>
    intro s
    left
    exact ⟨s, rfl, by simp⟩
  | cons st tail ih =>
    intro s
    rcases transferStrip_cases env srcUrl dstUrl st s with
      ⟨s1, e1, -, log1⟩ | ⟨s1, rest, e1, log1, hpre⟩
    · rcases ih s1 with ⟨s2, e2, log2⟩ | ⟨s2, rest, e2, log2, hpre⟩
      · left
        refine ⟨s2, by simp only [runPlan, e1]; exact e2, ?_⟩
        rw [log2, log1, List.flatMap_cons, List.append_assoc]
      · right
        refine ⟨s2, requestPair srcUrl dstUrl st ++ rest,
          by simp only [runPlan, e1]; exact e2, ?_, ?_⟩
        · rw [log2, log1, List.append_assoc]
        · rw [List.flatMap_cons]
          exact (List.prefix_append_right_inj _).mpr hpre
    · right
      refine ⟨s1, rest, by simp only [runPlan, e1], log1, ?_⟩
      rw [List.flatMap_cons]
      exact hpre.trans (List.prefix_append _ _)

/-- Whatever the network answers after the metadata is decoded, `sendLabels` ends:
normally after the requests of all planned strips, or through `os.Exit(1)` after a
prefix of them. -/
theorem sendLabels_cases (env : Env) (src dst : Metadata) (srcUrl dstUrl : String) (s : Sys)
    (m : LabelMetadata) (l : List Strip) (hinfo : InfoDecodes env s m)
    (hplan : stripPlan m.Extended = some l) :
    ∃ s1 rest, (sendLabels env src dst srcUrl dstUrl s = .ok () s1 ∨
        sendLabels env src dst srcUrl dstUrl s = .exit 1 s1) ∧
      s1.log.map Request.addr
        = s.log.map Request.addr ++ ("GET", srcUrl ++ "/info") :: rest ∧
      rest <+: l.flatMap (requestPair srcUrl dstUrl) := by
  obtain ⟨text, hget, hjson⟩ := hinfo
  obtain ⟨s0, e0, -, log0⟩ :=
    sendLabels_eq_runPlan env src dst srcUrl dstUrl s text m l hget hjson hplan
  rcases runPlan_cases env srcUrl dstUrl l s0 with ⟨s1, e1, log1⟩ | ⟨s1, rest, e1, log1, hpre⟩
  · refine ⟨s1, _, Or.inl (by rw [e0, e1]), ?_, List.prefix_refl _⟩
    rw [log1, log0]; simp
  · refine ⟨s1, rest, Or.inr (by rw [e0, e1]), ?_, hpre⟩
    rw [log1, log0]; simp

/-! ## Agreement with 64-bit arithmetic -/

theorem wrap64_of_fits {x : Int} (h : Fits x) : wrap64 x = x := by
  obtain ⟨h0, h1⟩ := h
  unfold wrap64
  omega

/-- On a valid geometry the factors of the layer size are bounded by the size. -/
theorem layer_factors_le {g : LabelExtended} (hg : Valid g) :
    nx g ≤ vx g ∧ ny g ≤ vy g ∧ vx g ≤ vx g * vy g ∧ vy g ≤ vx g * vy g ∧
    vx g * vy g ≤ vx g * vy g * vz g ∧ vx g * vy g * vz g ≤ vx g * vy g * vz g * 8 ∧
    1 ≤ vx g ∧ 1 ≤ vy g := by
  have hnx := nx_pos hg
  have hny := ny_pos hg
  obtain ⟨-, -, -, hbx, hby, hbz⟩ := hg
  have h1 : nx g ≤ vx g := le_mul_of_one_le_right (by omega) (by omega)
  have h2 : ny g ≤ vy g := le_mul_of_one_le_right (by omega) (by omega)
  have h3 : vx g ≤ vx g * vy g := le_mul_of_one_le_right (by omega) (by omega)
  have h4 : vy g ≤ vx g * vy g := le_mul_of_one_le_left (by omega) (by omega)
  have h5 : vx g * vy g ≤ vx g * vy g * vz g :=
    le_mul_of_one_le_right (by omega) (by unfold vz; omega)
  have h6 : vx g * vy g * vz g ≤ vx g * vy g * vz g * 8 :=
    le_mul_of_one_le_right (by omega) (by decide)
  exact ⟨h1, h2, h3, h4, h5, h6, by omega, by omega⟩

theorem arith64_eq {g : LabelExtended} (hg : Valid g) (hr : InRange g) :
    nx64 g = nx g ∧ ny64 g = ny g ∧ vx64 g = vx g ∧ vy64 g = vy g ∧
    layerBytes64 g = vx g * vy g * vz g * 8 ∧ strips64 g = strips g ∧
    byPerStrip64 g = byPerStrip g ∧ ox64 g = ox g := by
  obtain ⟨h1, h2, h3, h4, h5, h6, h7, h8⟩ := layer_factors_le hg
  have hnx := nx_pos hg
  have hny := ny_pos hg
  obtain ⟨⟨hs0, hs1⟩, hox, -⟩ := hr
  have enx : nx64 g = nx g := by
    have e : nx g = g.MaxIndex.i0 - g.MinIndex.i0 + 1 := rfl
    unfold nx64
    rw [wrap64_of_fits (x := g.MaxIndex.i0 - g.MinIndex.i0) ⟨by omega, by omega⟩,
      wrap64_of_fits ⟨by omega, by omega⟩, e]
  have eny : ny64 g = ny g := by
    have e : ny g = g.MaxIndex.i1 - g.MinIndex.i1 + 1 := rfl
    unfold ny64
    rw [wrap64_of_fits (x := g.MaxIndex.i1 - g.MinIndex.i1) ⟨by omega, by omega⟩,
      wrap64_of_fits ⟨by omega, by omega⟩, e]
  have evx : vx64 g = vx g := by
    unfold vx64
    rw [enx]
    exact wrap64_of_fits (x := vx g) ⟨by omega, by omega⟩
  have evy : vy64 g = vy g := by
    unfold vy64
    rw [eny]
    exact wrap64_of_fits (x := vy g) ⟨by omega, by omega⟩
  have esz : layerBytes64 g = vx g * vy g * vz g * 8 := by
    unfold layerBytes64
    rw [evx, evy, wrap64_of_fits (x := vx g * vy g) ⟨by omega, by omega⟩]
    have e : vx g * vy g * g.BlockSize.i2 = vx g * vy g * vz g := rfl
    rw [e, wrap64_of_fits (x := vx g * vy g * vz g) ⟨by omega, by omega⟩,
      wrap64_of_fits ⟨hs0, hs1⟩]
  have est : strips64 g = strips g := by
    unfold strips64 strips
    rw [esz]
    split
    · next h =>
      have q0 : 0 ≤ (vx g * vy g * vz g * 8).tdiv 2000000000 :=
        Int.tdiv_nonneg (by omega) (by decide)
      have q1 : (vx g * vy g * vz g * 8).tdiv 2000000000 ≤ vx g * vy g * vz g * 8 - 1 := by
        rw [Int.tdiv_eq_ediv (by omega) (by decide)]
        omega
      rw [wrap64_of_fits (x := (vx g * vy g * vz g * 8).tdiv 2000000000)
        ⟨by omega, by omega⟩, wrap64_of_fits ⟨by omega, by omega⟩]
    · rfl
  have ebp : byPerStrip64 g = byPerStrip g := by
    unfold byPerStrip64
    rw [eny, est]
    have b0 := byPerStrip_nonneg hg
    have b1 := strips_mul_byPerStrip_le hg
    have b2 := strips_pos g
    have b3 : byPerStrip g ≤ strips g * byPerStrip g :=
      le_mul_of_one_le_left b0 b2
    exact wrap64_of_fits (x := byPerStrip g) ⟨by omega, by omega⟩
  exact ⟨enx, eny, evx, evy, esz, est, ebp, by unfold ox64; exact wrap64_of_fits hox⟩

theorem stripAt64_eq {g : LabelExtended} (hg : Valid g) (hr : InRange g) (z oz : Int) {n : Int}
    (hn0 : 0 ≤ n) (hn : n < strips g) :
    stripAt64 g z oz n (g.MinIndex.i1 + n * byPerStrip g)
      = stripAt g z oz n (g.MinIndex.i1 + n * byPerStrip g) := by
  obtain ⟨-, -, evx, -, -, -, ebp, eox⟩ := arith64_eq hg hr
  obtain ⟨-, k2, -, k4, k5, k6, -, -⟩ := layer_factors_le hg
  have hb := byPerStrip_nonneg hg
  have hend := band_end_le hg hn
  have hstart := band_start_lt hg hn
  have hmul : 0 ≤ n * byPerStrip g := mul_nonneg hn0 hb
  have h4 : (n + 1) * byPerStrip g = n * byPerStrip g + byPerStrip g := by ring
  have hny : ny g = g.MaxIndex.i1 - g.MinIndex.i1 + 1 := rfl
  have hby : 0 < g.BlockSize.i1 := hg.2.2.2.2.1
  obtain ⟨⟨hs0, hs1⟩, -, ⟨ha0, ha1⟩, ⟨hb0, hb1⟩, ⟨hc0, hc1⟩, ⟨hd0, hd1⟩, -⟩ := hr
  have hc : ¬ (g.MinIndex.i1 + n * byPerStrip g + byPerStrip g - 1 > g.MaxIndex.i1) := by
    omega
  have e1 : wrap64 (g.MinIndex.i1 + n * byPerStrip g + byPerStrip g)
      = g.MinIndex.i1 + n * byPerStrip g + byPerStrip g :=
    wrap64_of_fits ⟨by omega, by omega⟩
  have e2 : wrap64 (g.MinIndex.i1 + n * byPerStrip g + byPerStrip g - 1)
      = g.MinIndex.i1 + n * byPerStrip g + byPerStrip g - 1 :=
    wrap64_of_fits ⟨by omega, by omega⟩
  have e3 : wrap64 (g.MinIndex.i1 + n * byPerStrip g + byPerStrip g - 1
      - (g.MinIndex.i1 + n * byPerStrip g))
      = g.MinIndex.i1 + n * byPerStrip g + byPerStrip g - 1
        - (g.MinIndex.i1 + n * byPerStrip g) :=
    wrap64_of_fits ⟨by omega, by omega⟩
  have e4 : wrap64 (g.MinIndex.i1 + n * byPerStrip g + byPerStrip g - 1
      - (g.MinIndex.i1 + n * byPerStrip g) + 1)
      = g.MinIndex.i1 + n * byPerStrip g + byPerStrip g - 1
        - (g.MinIndex.i1 + n * byPerStrip g) + 1 :=
    wrap64_of_fits ⟨by omega, by omega⟩
  have hvy : byPerStrip g * g.BlockSize.i1 ≤ vy g := by
    have : byPerStrip g ≤ ny g := by omega
    exact mul_le_mul_of_nonneg_right this (by omega)
  have hvy0 : 0 ≤ byPerStrip g * g.BlockSize.i1 := mul_nonneg hb (by omega)
  have hsimp : g.MinIndex.i1 + n * byPerStrip g + byPerStrip g - 1
      - (g.MinIndex.i1 + n * byPerStrip g) + 1 = byPerStrip g := by ring
  have e5 : wrap64 ((g.MinIndex.i1 + n * byPerStrip g + byPerStrip g - 1
      - (g.MinIndex.i1 + n * byPerStrip g) + 1) * g.BlockSize.i1)
      = (g.MinIndex.i1 + n * byPerStrip g + byPerStrip g - 1
        - (g.MinIndex.i1 + n * byPerStrip g) + 1) * g.BlockSize.i1 := by
    rw [hsimp]
    exact wrap64_of_fits ⟨by omega, by omega⟩
  have hoy0 : g.MinIndex.i1 * g.BlockSize.i1
      ≤ (g.MinIndex.i1 + n * byPerStrip g) * g.BlockSize.i1 :=
    mul_le_mul_of_nonneg_right (by omega) (by omega)
  have hoy1 : (g.MinIndex.i1 + n * byPerStrip g) * g.BlockSize.i1
      ≤ g.MaxIndex.i1 * g.BlockSize.i1 :=
    mul_le_mul_of_nonneg_right (by omega) (by omega)
  have e6 : wrap64 ((g.MinIndex.i1 + n * byPerStrip g) * g.BlockSize.i1)
      = (g.MinIndex.i1 + n * byPerStrip g) * g.BlockSize.i1 :=
    wrap64_of_fits ⟨by omega, by omega⟩
  unfold stripAt64 stripAt
  simp only [ebp, evx, eox, e1, e2, hc, if_false, e3, e4, e5, e6, vz]

theorem stripLoop64_eq {g : LabelExtended} (hg : Valid g) (hr : InRange g) (z oz : Int) :
    ∀ (fuel : Nat) (n : Int), 0 ≤ n → n + fuel = strips g →
      stripLoop64 g z oz fuel n (g.MinIndex.i1 + n * byPerStrip g)
        = stripLoop g z oz fuel n (g.MinIndex.i1 + n * byPerStrip g) := by
  obtain ⟨-, -, -, -, esz, est, ebp, -⟩ := arith64_eq hg hr
  obtain ⟨-, k2, -, k4, k5, k6, -, -⟩ := layer_factors_le hg
  have hb := byPerStrip_nonneg hg
  have hsfit : strips g ≤ 9223372036854775807 := by
    obtain ⟨hs0, hs1⟩ := hr.1
    unfold strips
    split
    · next h =>
      rw [Int.tdiv_eq_ediv (by omega) (by decide)]
      omega
    · decide
  have hc := hr.2.2.2.2.1
  have hd := hr.2.2.2.2.2.1
  intro fuel
  induction fuel with
  | zero =>
    intro n _ _
    rw [stripLoop64, stripLoop, est]
  | succ fuel ih =>
    intro n hn hfuel
    have hlt : n < strips g := by push_cast at hfuel; omega
    have hend := band_end_le hg hlt
    have hmul : 0 ≤ n * byPerStrip g := mul_nonneg hn hb
    have h4 : (n + 1) * byPerStrip g = n * byPerStrip g + byPerStrip g := by ring
    have hny : ny g = g.MaxIndex.i1 - g.MinIndex.i1 + 1 := rfl
    obtain ⟨hc0, hc1⟩ := hc
    obtain ⟨hd0, hd1⟩ := hd
    have e1 : wrap64 (n + 1) = n + 1 := wrap64_of_fits ⟨by omega, by omega⟩
    have e2 : wrap64 (g.MinIndex.i1 + n * byPerStrip g + byPerStrip g)
        = g.MinIndex.i1 + (n + 1) * byPerStrip g := by
      rw [wrap64_of_fits ⟨by omega, by omega⟩]
      ring
    have e3 : g.MinIndex.i1 + n * byPerStrip g + byPerStrip g
        = g.MinIndex.i1 + (n + 1) * byPerStrip g := by ring
    have hrec := ih (n + 1) (by omega) (by push_cast at hfuel; omega)
    rw [stripLoop64, stripLoop, est, ebp, e1, e2, e3, hrec, stripAt64_eq hg hr z oz hn hlt]

theorem layerStrips64_eq {g : LabelExtended} (hg : Valid g) (hr : InRange g) {z : Int}
    (hz0 : g.MinIndex.i2 ≤ z) (hz1 : z ≤ g.MaxIndex.i2) :
    layerStrips64 g z = layerStrips g z := by
  obtain ⟨-, -, -, -, -, est, -, -⟩ := arith64_eq hg hr
  have hs := strips_pos g
  have hbz : 0 < g.BlockSize.i2 := hg.2.2.2.2.2
  obtain ⟨ha0, ha1⟩ := hr.2.2.2.2.2.2.1
  obtain ⟨hb0, hb1⟩ := hr.2.2.2.2.2.2.2.1
  have hoz0 : g.MinIndex.i2 * g.BlockSize.i2 ≤ z * g.BlockSize.i2 :=
    mul_le_mul_of_nonneg_right hz0 (by omega)
  have hoz1 : z * g.BlockSize.i2 ≤ g.MaxIndex.i2 * g.BlockSize.i2 :=
    mul_le_mul_of_nonneg_right hz1 (by omega)
  have e2 : wrap64 (z * g.BlockSize.i2) = z * g.BlockSize.i2 :=
    wrap64_of_fits ⟨by omega, by omega⟩
  have h := stripLoop64_eq hg hr z (z * g.BlockSize.i2) (strips g).toNat 0 (le_refl 0)
    (by rw [Int.toNat_of_nonneg (by omega)]; simp)
  rw [zero_mul, add_zero] at h
  unfold layerStrips64 layerStrips
  rw [e2, est]
  exact h

theorem layerLoop64_eq {g : LabelExtended} (hg : Valid g) (hr : InRange g) :
    ∀ (fuel : Nat) (z : Int), g.MinIndex.i2 ≤ z → z + fuel = g.MaxIndex.i2 + 1 →
      layerLoop64 g fuel z = layerLoop g fuel z := by
  obtain ⟨hc0, hc1⟩ := hr.2.2.2.2.2.2.2.2.1
  obtain ⟨hd0, hd1⟩ := hr.2.2.2.2.2.2.2.2.2
  intro fuel
  induction fuel with
  | zero =>
    intro z _ _
    rfl
  | succ fuel ih =>
    intro z hz0 hz
    have hle : z ≤ g.MaxIndex.i2 := by push_cast at hz; omega
    have e1 : wrap64 (z + 1) = z + 1 := wrap64_of_fits ⟨by omega, by omega⟩
    have hrec := ih (z + 1) (by omega) (by push_cast at hz; omega)
    show (if z ≤ g.MaxIndex.i2 then
        (match layerStrips64 g z, layerLoop64 g fuel (wrap64 (z + 1)) with
          | some l, some rest => some (l ++ rest)
          | _, _ => none)
        else some [])
      = (if z ≤ g.MaxIndex.i2 then
        (match layerStrips g z, layerLoop g fuel (z + 1) with
          | some l, some rest => some (l ++ rest)
          | _, _ => none)
        else some [])
    rw [layerStrips64_eq hg hr hz0 hle, e1, hrec]

/-- On a valid geometry whose layer size, corner origins and index successors fit in 64
bits, the loops computed on 64-bit integers visit exactly the strips computed on
unbounded integers: no operation wraps. -/
theorem stripPlan64_eq (g : LabelExtended) (hg : Valid g) (hr : InRange g) :
    stripPlan64 g = stripPlan g := by
  have hz : g.MinIndex.i2 ≤ g.MaxIndex.i2 := hg.2.2.1
  exact layerLoop64_eq hg hr _ _ (le_refl _) (by rw [Int.toNat_of_nonneg (by omega)]; ring)

/-- The agreement at the layer of 2,500,000,000 bytes. -/
theorem stripPlan64_eq_witness :
    Valid geomSplit ∧ InRange geomSplit ∧
    stripPlan64 geomSplit =
      some [⟨0, 0, 0, 49, 1250, 2500, 50, 0, 0, 0⟩,
        ⟨0, 1, 50, 99, 1250, 2500, 50, 0, 2500, 0⟩] :=
  ⟨by decide, by decide, (stripPlan64_eq geomSplit (by decide) (by decide)).trans (by decide)⟩

/-! ## The 64-bit loops: termination of the inner loop, prefixes of the outer loop -/

theorem wrap64_fits (x : Int) : Fits (wrap64 x) := by
  unfold wrap64 Fits
  omega

theorem strips64_bounds (g : LabelExtended) :
    1 ≤ strips64 g ∧ strips64 g < 9223372036854775808 := by
  obtain ⟨h0, h1⟩ := wrap64_fits
    (wrap64 (wrap64 (vx64 g * vy64 g) * g.BlockSize.i2) * 8)
  have hdef : layerBytes64 g
      = wrap64 (wrap64 (wrap64 (vx64 g * vy64 g) * g.BlockSize.i2) * 8) := rfl
  unfold strips64
  rw [hdef]
  generalize wrap64 (wrap64 (wrap64 (vx64 g * vy64 g) * g.BlockSize.i2) * 8) = sz at h0 h1
  split
  · next h =>
    have q : sz.tdiv 2000000000 = sz / 2000000000 :=
      Int.tdiv_eq_ediv (by omega) (by decide)
    rw [q, wrap64_of_fits (x := sz / 2000000000) ⟨by omega, by omega⟩,
      wrap64_of_fits ⟨by omega, by omega⟩]
    omega
  · exact ⟨le_refl 1, by decide⟩

/-- The inner loop of the program always ends within `strips` passes. -/
theorem stripLoop64_total (g : LabelExtended) (z oz : Int) :
    ∀ (fuel : Nat) (n by0 : Int), 0 ≤ n → strips64 g ≤ n + fuel →
      ∃ l, stripLoop64 g z oz fuel n by0 = some l := by
  obtain ⟨hs1, hs2⟩ := strips64_bounds g
  intro fuel
  induction fuel with
  | zero =>
    intro n by0 _ h
    have : ¬ n < strips64 g := by simp at h; omega
    exact ⟨[], by rw [stripLoop64, if_neg this]⟩
  | succ fuel ih =>
    intro n by0 hn h
    rw [stripLoop64]
    by_cases hlt : n < strips64 g
    · by_cases hb : by0 > g.MaxIndex.i1
      · exact ⟨[], by rw [if_pos hlt, if_pos hb]⟩
      · have e1 : wrap64 (n + 1) = n + 1 := wrap64_of_fits ⟨by omega, by omega⟩
        obtain ⟨rest, hrest⟩ := ih (n + 1) (wrap64 (by0 + byPerStrip64 g)) (by omega)
          (by push_cast at h; omega)
        refine ⟨stripAt64 g z oz n by0 :: rest, ?_⟩
        rw [if_pos hlt, if_neg hb, e1, hrest]
    · exact ⟨[], by rw [if_neg hlt]⟩

theorem layerStrips64_total (g : LabelExtended) (z : Int) :
    ∃ l, layerStrips64 g z = some l := by
  obtain ⟨hs1, -⟩ := strips64_bounds g
  exact stripLoop64_total g z _ _ 0 _ (le_refl 0)
    (by rw [Int.toNat_of_nonneg (by omega)]; simp)

theorem sendStrips64_eq_runPlan (env : Env) (g : LabelExtended) (srcUrl dstUrl : String)
    (z oz : Int) :
    ∀ (fuel : Nat) (n by0 : Int) (l : List Strip) (s : Sys),
      stripLoop64 g z oz fuel n by0 = some l →
      sendStrips64 env g srcUrl dstUrl z oz fuel n by0 s = runPlan env srcUrl dstUrl l s := by
  intro fuel
  induction fuel with
  | zero =>
    intro n by0 l s h
    rw [stripLoop64] at h
    rw [sendStrips64]
    split at h
    · exact absurd h (by simp)
    · next hn =>
      simp only [Option.some.injEq] at h
      subst h
      simp [hn, runPlan]
  | succ fuel ih =>
    intro n by0 l s h
    rw [stripLoop64] at h
    rw [sendStrips64]
    split at h
    · next hn =>
      split at h
      · next hb =>
        simp only [Option.some.injEq] at h
        subst h
        simp [hn, hb, runPlan]
      · next hb =>
        cases hrec : stripLoop64 g z oz fuel (wrap64 (n + 1)) (wrap64 (by0 + byPerStrip64 g)) with
        | none => rw [hrec] at h; exact absurd h (by simp)
        | some rest =>
          rw [hrec] at h
          simp only [Option.some.injEq] at h
          subst h
          simp only [hn, hb, if_true, if_false, runPlan]
          cases transferStrip env srcUrl dstUrl (stripAt64 g z oz n by0) s with
          | ok a s1 => exact ih _ _ rest s1 hrec
          | exit code s1 => rfl
          | outOfFuel => rfl
    · next hn =>
      simp only [Option.some.injEq] at h
      subst h
      simp [hn, runPlan]

/-- The outer loop of the program, cut off after `fuel` passes, is the fail-stop
transfer of the strips built within these passes. -/
theorem sendLayers64_eq (env : Env) (g : LabelExtended) (srcUrl dstUrl : String) :
    ∀ (fuel : Nat) (z : Int) (s : Sys),
      sendLayers64 env g srcUrl dstUrl fuel z s
        = (runPlan env srcUrl dstUrl (layerPrefix64 g fuel z) s).orFuel
            (layerDone64 g fuel z) := by
  intro fuel
  induction fuel with
  | zero =>
    intro z s
    by_cases hz : z ≤ g.MaxIndex.i2
    · show (if z ≤ g.MaxIndex.i2 then Outcome.outOfFuel else Outcome.ok () s)
        = (Outcome.ok () s).orFuel (decide (¬ z ≤ g.MaxIndex.i2))
      simp [hz, Outcome.orFuel]
    · show (if z ≤ g.MaxIndex.i2 then Outcome.outOfFuel else Outcome.ok () s)
        = (Outcome.ok () s).orFuel (decide (¬ z ≤ g.MaxIndex.i2))
      simp [hz, Outcome.orFuel]
  | succ fuel ih =>
    intro z s
    obtain ⟨l, hl⟩ := layerStrips64_total g z
    have hstrips := sendStrips64_eq_runPlan env g srcUrl dstUrl z
      (wrap64 (z * g.BlockSize.i2)) (strips64 g).toNat 0 g.MinIndex.i1 l s hl
    by_cases hz : z ≤ g.MaxIndex.i2
    · have e1 : sendLayers64 env g srcUrl dstUrl (fuel + 1) z s
          = (match runPlan env srcUrl dstUrl l s with
              | .ok _ s1 => sendLayers64 env g srcUrl dstUrl fuel (wrap64 (z + 1)) s1
              | .exit code s1 => .exit code s1
              | .outOfFuel => .outOfFuel) := by
        rw [← hstrips]
        show (if z ≤ g.MaxIndex.i2 then _ else _) = _
        rw [if_pos hz]
      have e2 : layerPrefix64 g (fuel + 1) z = l ++ layerPrefix64 g fuel (wrap64 (z + 1)) := by
        show (if z ≤ g.MaxIndex.i2 then _ else _) = _
        rw [if_pos hz, hl]
        rfl
      have e3 : layerDone64 g (fuel + 1) z = layerDone64 g fuel (wrap64 (z + 1)) := by
        show (if z ≤ g.MaxIndex.i2 then _ else _) = _
        rw [if_pos hz]
      rw [e1, e2, e3, runPlan_append]
      cases runPlan env srcUrl dstUrl l s with
      | ok a s1 => exact ih (wrap64 (z + 1)) s1
      | exit code s1 => rfl
      | outOfFuel => rfl
    · have e1 : sendLayers64 env g srcUrl dstUrl (fuel + 1) z s = .ok () s := by
        show (if z ≤ g.MaxIndex.i2 then _ else _) = _
        rw [if_neg hz]
      have e2 : layerPrefix64 g (fuel + 1) z = [] := by
        show (if z ≤ g.MaxIndex.i2 then _ else _) = _
        rw [if_neg hz]
      have e3 : layerDone64 g (fuel + 1) z = true := by
        show (if z ≤ g.MaxIndex.i2 then _ else _) = _
        rw [if_neg hz]
      rw [e1, e2, e3]
      rfl

/-- When the outer loop ends within `fuel` passes, the strips built within these passes
are all its strips. -/
theorem layerPrefix64_of_layerLoop64 (g : LabelExtended) :
    ∀ (fuel : Nat) (z : Int) (l : List Strip), layerLoop64 g fuel z = some l →
      layerPrefix64 g fuel z = l ∧ layerDone64 g fuel z = true := by
  intro fuel
  induction fuel with
  | zero =>
    intro z l h
    have h2 : (if z ≤ g.MaxIndex.i2 then none else some []) = some l := h
    by_cases hz : z ≤ g.MaxIndex.i2
    · rw [if_pos hz] at h2; exact absurd h2 (by simp)
    · rw [if_neg hz] at h2
      simp only [Option.some.injEq] at h2
      subst h2
      refine ⟨rfl, ?_⟩
      show decide (¬ z ≤ g.MaxIndex.i2) = true
      simp [hz]
  | succ fuel ih =>
    intro z l h
    have h2 : (if z ≤ g.MaxIndex.i2 then
        (match layerStrips64 g z, layerLoop64 g fuel (wrap64 (z + 1)) with
          | some l, some rest => some (l ++ rest)
          | _, _ => none)
        else some []) = some l := h
    by_cases hz : z ≤ g.MaxIndex.i2
    · rw [if_pos hz] at h2
      cases hl : layerStrips64 g z with
      | none => rw [hl] at h2; exact absurd h2 (by simp)
      | some l1 =>
        cases hrec : layerLoop64 g fuel (wrap64 (z + 1)) with
        | none => rw [hl, hrec] at h2; exact absurd h2 (by simp)
        | some rest =>
          rw [hl, hrec] at h2
          simp only [Option.some.injEq] at h2
          subst h2
          obtain ⟨ih1, ih2⟩ := ih (wrap64 (z + 1)) rest hrec
          constructor
          · show (if z ≤ g.MaxIndex.i2 then _ else _) = _
            rw [if_pos hz, hl, ih1]
            rfl
          · show (if z ≤ g.MaxIndex.i2 then _ else _) = _
            rw [if_pos hz, ih2]
    · rw [if_neg hz] at h2
      simp only [Option.some.injEq] at h2
      subst h2
      constructor
      · show (if z ≤ g.MaxIndex.i2 then _ else _) = _
        rw [if_neg hz]
      · show (if z ≤ g.MaxIndex.i2 then _ else _) = _
        rw [if_neg hz]

/-- Once the outer loop has ended, more fuel changes nothing. -/
theorem layerPrefix64_more_fuel (g : LabelExtended) :
    ∀ (fuel : Nat) (z : Int), layerDone64 g fuel z = true →
      ∀ extra : Nat, layerPrefix64 g (fuel + extra) z = layerPrefix64 g fuel z ∧
        layerDone64 g (fuel + extra) z = true := by
  have step : ∀ (fuel : Nat) (z : Int), layerDone64 g fuel z = true →
      layerPrefix64 g (fuel + 1) z = layerPrefix64 g fuel z ∧
        layerDone64 g (fuel + 1) z = true := by
    intro fuel
    induction fuel with
    | zero =>
      intro z h
      have h2 : decide (¬ z ≤ g.MaxIndex.i2) = true := h
      have hz : ¬ z ≤ g.MaxIndex.i2 := by simpa using h2
      constructor
      · show (if z ≤ g.MaxIndex.i2 then _ else _) = _
        rw [if_neg hz]
        rfl
      · show (if z ≤ g.MaxIndex.i2 then _ else _) = _
        rw [if_neg hz]
    | succ fuel ih =>
      intro z h
      by_cases hz : z ≤ g.MaxIndex.i2
      · have h2 : layerDone64 g fuel (wrap64 (z + 1)) = true := by
          have h3 : (if z ≤ g.MaxIndex.i2 then layerDone64 g fuel (wrap64 (z + 1)) else true)
              = true := h
          rwa [if_pos hz] at h3
        obtain ⟨ih1, ih2⟩ := ih (wrap64 (z + 1)) h2
        constructor
        · show (if z ≤ g.MaxIndex.i2 then
              (layerStrips64 g z).getD [] ++ layerPrefix64 g (fuel + 1) (wrap64 (z + 1))
              else [])
            = (if z ≤ g.MaxIndex.i2 then
              (layerStrips64 g z).getD [] ++ layerPrefix64 g fuel (wrap64 (z + 1))
              else [])
          rw [ih1]
        · show (if z ≤ g.MaxIndex.i2 then layerDone64 g (fuel + 1) (wrap64 (z + 1)) else true)
            = true
          rw [if_pos hz, ih2]
      · constructor
        · show (if z ≤ g.MaxIndex.i2 then _ else _) = (if z ≤ g.MaxIndex.i2 then _ else _)
          rw [if_neg hz, if_neg hz]
        · show (if z ≤ g.MaxIndex.i2 then _ else _) = _
          rw [if_neg hz]
  intro fuel z h extra
  induction extra with
  | zero => exact ⟨rfl, h⟩
  | succ extra ih =>
    obtain ⟨ih1, ih2⟩ := ih
    obtain ⟨s1, s2⟩ := step (fuel + extra) z ih2
    exact ⟨s1.trans ih1, s2⟩

/-- When the outer loop ends within `layerCount` passes, every fuel from `layerCount` on
yields all its strips. -/
theorem planPrefix64_of_stripPlan64 (g : LabelExtended) (plan : List Strip)
    (h : stripPlan64 g = some plan) (fuel : Nat) (hfuel : layerCount g ≤ fuel) :
    planPrefix64 g fuel = plan ∧ layerDone64 g fuel g.MinIndex.i2 = true := by
  obtain ⟨h1, h2⟩ := layerPrefix64_of_layerLoop64 g (layerCount g) g.MinIndex.i2 plan h
  obtain ⟨e1, e2⟩ := layerPrefix64_more_fuel g (layerCount g) g.MinIndex.i2 h2
    (fuel - layerCount g)
  have e : layerCount g + (fuel - layerCount g) = fuel := by omega
  rw [e] at e1 e2
  exact ⟨e1.trans h1, e2⟩

/-- On a valid geometry without overflow, the loops of the program end and build the
bands of the closed form. -/
theorem stripPlan64_inRange {g : LabelExtended} (hg : Valid g) (hr : InRange g) :
    stripPlan64 g = some (bandPlan g) :=
  (stripPlan64_eq g hg hr).trans (stripPlan_eq hg)

theorem layerStrips64_inRange {g : LabelExtended} (hg : Valid g) (hr : InRange g) {z : Int}
    (hz0 : g.MinIndex.i2 ≤ z) (hz1 : z ≤ g.MaxIndex.i2) :
    layerStrips64 g z = some (bandLayer g z) :=
  (layerStrips64_eq hg hr hz0 hz1).trans (layerStrips_eq hg z)

/-- Once the label metadata is fetched and decoded, the program is the fail-stop
transfer of the strips its loops build; the fetch is the one request made before them. -/
theorem sendLabels64_eq (fuel : Nat) (env : Env) (src dst : Metadata) (srcUrl dstUrl : String)
    (s : Sys) (m : LabelMetadata) (hinfo : InfoDecodes env s m) :
    ∃ s0, sendLabels64 fuel env src dst srcUrl dstUrl s
        = (runPlan env srcUrl dstUrl (planPrefix64 m.Extended fuel) s0).orFuel
            (layerDone64 m.Extended fuel m.Extended.MinIndex.i2) ∧
      s0.log.length = s.log.length + 1 ∧
      s0.log.map Request.addr = s.log.map Request.addr ++ [("GET", srcUrl ++ "/info")] := by
  obtain ⟨text, hget, hjson⟩ := hinfo
  have h1 : sendLabels64 fuel env src dst srcUrl dstUrl s
      = sendLabelsFrom64 fuel env m srcUrl dstUrl
          { s with log := s.log ++ [{ method := "GET", url := srcUrl ++ "/info",
                                      contentType := "", body := none }] } := by
    simp only [sendLabels64, httpGet, hget, hjson, ne_eq, not_true_eq_false, if_false]
  have h2 : ∀ s1 : Sys, ∃ s0, sendLabelsFrom64 fuel env m srcUrl dstUrl s1
      = (runPlan env srcUrl dstUrl (planPrefix64 m.Extended fuel) s0).orFuel
          (layerDone64 m.Extended fuel m.Extended.MinIndex.i2) ∧ s0.log = s1.log := by
    intro s1
    unfold sendLabelsFrom64 planPrefix64
    refine ⟨_, sendLayers64_eq env m.Extended srcUrl dstUrl fuel _ _, ?_⟩
    simp only [printf]
    split <;> rfl
  obtain ⟨s0, e0, log0⟩ := h2
    { s with log := s.log ++ [{ method := "GET", url := srcUrl ++ "/info",
                                contentType := "", body := none }] }
  refine ⟨s0, by rw [h1, e0], ?_, ?_⟩
  · rw [log0]; simp
  · rw [log0]; simp [Request.addr]

/-- On a valid geometry without overflow, a run of the program in which nothing fails
returns normally after the metadata fetch and one read-write pair per band, in order. -/
theorem sendLabels64_all_ok {g : LabelExtended} (hg : Valid g) (hr : InRange g) (fuel : Nat)
    (hfuel : layerCount g ≤ fuel) (env : Env) (src dst : Metadata) (srcUrl dstUrl : String)
    (s : Sys) (m : LabelMetadata) (hm : m.Extended = g) (hrun : AllSucceed env s m) :
    ∃ s1, sendLabels64 fuel env src dst srcUrl dstUrl s = .ok () s1 ∧
      s1.log.map Request.addr
        = s.log.map Request.addr ++ ("GET", srcUrl ++ "/info")
            :: (bandPlan g).flatMap (requestPair srcUrl dstUrl) := by
  subst hm
  obtain ⟨hinfo, hall⟩ := hrun
  obtain ⟨s0, e0, len0, log0⟩ := sendLabels64_eq fuel env src dst srcUrl dstUrl s m hinfo
  obtain ⟨hp, hd⟩ := planPrefix64_of_stripPlan64 m.Extended _ (stripPlan64_inRange hg hr)
    fuel hfuel
  rw [hp, hd] at e0
  obtain ⟨s1, e1, -, log1⟩ := runPlan_all_ok env srcUrl dstUrl (bandPlan m.Extended) s0
    (fun j _ => by rw [len0]; exact hall j)
  refine ⟨s1, by rw [e0, e1]; rfl, ?_⟩
  rw [log1, log0]
  simp

/-- On a valid geometry without overflow, whatever the network answers after the
metadata is decoded, the program ends: normally after the requests of all bands, or
through `os.Exit(1)` after a prefix of them. -/
theorem sendLabels64_cases {g : LabelExtended} (hg : Valid g) (hr : InRange g) (fuel : Nat)
    (hfuel : layerCount g ≤ fuel) (env : Env) (src dst : Metadata) (srcUrl dstUrl : String)
    (s : Sys) (m : LabelMetadata) (hm : m.Extended = g) (hinfo : InfoDecodes env s m) :
    ∃ s1 rest, (sendLabels64 fuel env src dst srcUrl dstUrl s = .ok () s1 ∨
        sendLabels64 fuel env src dst srcUrl dstUrl s = .exit 1 s1) ∧
      s1.log.map Request.addr
        = s.log.map Request.addr ++ ("GET", srcUrl ++ "/info") :: rest ∧
      rest <+: (bandPlan g).flatMap (requestPair srcUrl dstUrl) := by
  subst hm
  obtain ⟨s0, e0, -, log0⟩ := sendLabels64_eq fuel env src dst srcUrl dstUrl s m hinfo
  obtain ⟨hp, hd⟩ := planPrefix64_of_stripPlan64 m.Extended _ (stripPlan64_inRange hg hr)
    fuel hfuel
  rw [hp, hd] at e0
  rcases runPlan_cases env srcUrl dstUrl (bandPlan m.Extended) s0 with
    ⟨s1, e1, log1⟩ | ⟨s1, rest, e1, log1, hpre⟩
  · refine ⟨s1, _, Or.inl (by rw [e0, e1]; rfl), ?_, List.prefix_refl _⟩
    rw [log1, log0]; simp
  · refine ⟨s1, rest, Or.inr (by rw [e0, e1]; rfl), ?_, hpre⟩
    rw [log1, log0]; simp

/-! ## The byte ceiling -/

/-- C3: on a valid geometry every strip built by `sendLabels` has a payload
`sizeX * sizeY * sizeZ * 8` of at most 2,000,000,000 bytes, split or not: for the loops
on unbounded integers, and for the loops on 64-bit integers when no operation
overflows; and in every run, whatever the network answers, each request sent after the
metadata fetch is the read or the write of such a strip, again on unbounded integers
and, when no operation overflows, on 64-bit integers. -/
theorem strip_bytes_le_ceiling (g : LabelExtended) (hg : Valid g) :
    (∃ plan, stripPlan g = some plan ∧ ∀ st ∈ plan, st.bytes ≤ 2000000000) ∧
    (InRange g → ∃ plan, stripPlan64 g = some plan ∧ ∀ st ∈ plan, st.bytes ≤ 2000000000) ∧
    (∀ (env : Env) (src dst : Metadata) (srcUrl dstUrl : String) (s : Sys) (m : LabelMetadata),
      m.Extended = g → InfoDecodes env s m →
      ∃ s1 rest, (sendLabels env src dst srcUrl dstUrl s = .ok () s1 ∨
          sendLabels env src dst srcUrl dstUrl s = .exit 1 s1) ∧
        s1.log.map Request.addr
          = s.log.map Request.addr ++ ("GET", srcUrl ++ "/info") :: rest ∧
        ∀ a ∈ rest, ∃ st, st.bytes ≤ 2000000000 ∧ a ∈ requestPair srcUrl dstUrl st) ∧
    (InRange g →
      ∀ (fuel : Nat) (env : Env) (src dst : Metadata) (srcUrl dstUrl : String) (s : Sys)
        (m : LabelMetadata), layerCount g ≤ fuel → m.Extended = g → InfoDecodes env s m →
        ∃ s1 rest, (sendLabels64 fuel env src dst srcUrl dstUrl s = .ok () s1 ∨
            sendLabels64 fuel env src dst srcUrl dstUrl s = .exit 1 s1) ∧
          s1.log.map Request.addr
            = s.log.map Request.addr ++ ("GET", srcUrl ++ "/info") :: rest ∧
          ∀ a ∈ rest, ∃ st, st.bytes ≤ 2000000000 ∧ a ∈ requestPair srcUrl dstUrl st) := by
  have hbytes : ∀ st ∈ bandPlan g, st.bytes ≤ 2000000000 := by
    intro st hst
    obtain ⟨z, -, -, hz⟩ := mem_bandPlan.mp hst
    obtain ⟨n, -, -, rfl⟩ := mem_bandLayer.mp hz
    exact band_bytes_le hg
  refine ⟨⟨bandPlan g, stripPlan_eq hg, hbytes⟩,
    fun hr => ⟨bandPlan g, (stripPlan64_eq g hg hr).trans (stripPlan_eq hg), hbytes⟩, ?_, ?_⟩
  · intro env src dst srcUrl dstUrl s m hm hinfo
    subst hm
    obtain ⟨s1, rest, hout, hlog, hpre⟩ :=
      sendLabels_cases env src dst srcUrl dstUrl s m (bandPlan m.Extended) hinfo
        (stripPlan_eq hg)
    refine ⟨s1, rest, hout, hlog, ?_⟩
    intro a ha
    obtain ⟨st, hst, hmem⟩ := List.mem_flatMap.mp (hpre.subset ha)
    exact ⟨st, hbytes st hst, hmem⟩
  · intro hr fuel env src dst srcUrl dstUrl s m hfuel hm hinfo
    obtain ⟨s1, rest, hout, hlog, hpre⟩ :=
      sendLabels64_cases hg hr fuel hfuel env src dst srcUrl dstUrl s m hm hinfo
    refine ⟨s1, rest, hout, hlog, ?_⟩
    intro a ha
    obtain ⟨st, hst, hmem⟩ := List.mem_flatMap.mp (hpre.subset ha)
    exact ⟨st, hbytes st hst, hmem⟩

/-- C3 at the layer of 2,500,000,000 bytes: two strips of 1,250,000,000 bytes each. -/
theorem strip_bytes_le_ceiling_witness :
    Valid geomSplit ∧ InRange geomSplit ∧
    (∃ plan, stripPlan64 geomSplit = some plan ∧ ∀ st ∈ plan, st.bytes ≤ 2000000000) ∧
    ∃ plan, stripPlan geomSplit = some plan ∧ plan.map Strip.bytes = [1250000000, 1250000000] ∧
      ∀ st ∈ plan, st.bytes ≤ 2000000000 := by
  refine ⟨by decide, by decide,
    (strip_bytes_le_ceiling geomSplit (by decide)).2.1 (by decide), ?_⟩
  obtain ⟨plan, hplan, hle⟩ := (strip_bytes_le_ceiling geomSplit (by decide)).1
  have h2 : stripPlan geomSplit =
      some [⟨0, 0, 0, 49, 1250, 2500, 50, 0, 0, 0⟩,
        ⟨0, 1, 50, 99, 1250, 2500, 50, 0, 2500, 0⟩] := by decide
  refine ⟨plan, hplan, ?_, hle⟩
  rw [h2] at hplan
  simp only [Option.some.injEq] at hplan
  subst hplan
  decide

/-! ## Voxels of a layer -/

theorem getMetadata_ok (env : Env) (baseUrl : String) (s : Sys) (text : String) (m : Metadata)
    (hget : env.http s.log.length = .response { StatusCode := 200, Body := .data text })
    (hjson : env.unmarshalMetadata text = .ok m) :
    getMetadata env baseUrl s
      = .ok m { s with log := s.log ++ [getRequest (baseUrl ++ "/info")] } := by
  simp only [getMetadata, httpGet, hget, hjson, ne_eq, not_true_eq_false, if_false, getRequest]

/-- After both descriptors are resolved, `transferData` is its `switch` on the type
names, run in the state that holds the two `/info` requests. -/
theorem transferData_resolved (env : Env) (src dst : String) (s : Sys) (sm dm : Metadata)
    (hres : Resolves env s sm dm) :
    transferData env src dst s =
      (fun s2 : Sys =>
        if sm.Base.TypeName = "grayscale8" ∨ sm.Base.TypeName = "uint8blk" then
          if dm.Base.TypeName ≠ "uint8blk" then
            Outcome.exit 1 (printf s2 ("Can\x27t transfer " ++ sm.Base.TypeName ++ " to "
              ++ dm.Base.TypeName ++ ", need uint8blk destination\n"))
          else .ok () s2
        else if sm.Base.TypeName = "labels64" then
          if dm.Base.TypeName ≠ "labelblk" then
            .exit 1 (printf s2 ("Can\x27t transfer " ++ sm.Base.TypeName ++ " to "
              ++ dm.Base.TypeName ++ ", need labelblk destination\n"))
          else sendLabels env sm dm src dst s2
        else if sm.Base.TypeName = "roi" then
          if dm.Base.TypeName ≠ "roi" then
            .exit 1 (printf s2 ("Can\x27t transfer " ++ sm.Base.TypeName ++ " to "
              ++ dm.Base.TypeName ++ ", need roi destination\n"))
          else sendROI env sm dm src dst s2
        else
          .exit 1 (printf s2 ("Cannot handle source data type " ++ sm.Base.TypeName ++ "\n")))
      { s with log := s.log ++ [getRequest (src ++ "/info")] ++ [getRequest (dst ++ "/info")] }
    := by
  obtain ⟨t1, t2, h1, j1, h2, j2⟩ := hres
  have e1 := getMetadata_ok env src s t1 sm h1 j1
  have e2 := getMetadata_ok env dst
    { s with log := s.log ++ [getRequest (src ++ "/info")] } t2 dm
    (by simpa using h2) j2
  unfold transferData
  rw [e1]
  simp only [e2]

/-- C5: once both descriptors are resolved, every pair of type names outside the table
(grayscale8 to uint8blk, uint8blk to uint8blk, labels64 to labelblk, roi to roi) makes
`transferData` end in `os.Exit(1)` after exactly the two `/info` reads: no write and no
other request is sent. This covers an unknown source type and a known source type with
the wrong destination type. -/
theorem incompatible_pair_is_fatal (env : Env) (src dst : String) (s : Sys) (sm dm : Metadata)
    (hres : Resolves env s sm dm)
    (hbad : ¬ Compatible sm.Base.TypeName dm.Base.TypeName) :
    ∃ s1, transferData env src dst s = .exit 1 s1 ∧
      s1.log = s.log ++ [getRequest (src ++ "/info"), getRequest (dst ++ "/info")] ∧
      ∀ r ∈ [getRequest (src ++ "/info"), getRequest (dst ++ "/info")], r.method ≠ "POST" := by
  rw [transferData_resolved env src dst s sm dm hres]
  unfold Compatible at hbad
  simp only [not_or, not_and] at hbad
  obtain ⟨h1, h2, h3, h4⟩ := hbad
  have hpost : ∀ r ∈ [getRequest (src ++ "/info"), getRequest (dst ++ "/info")],
      r.method ≠ "POST" := by
    intro r hr
    simp only [List.mem_cons, List.mem_singleton, List.not_mem_nil, or_false] at hr
    have hne : ("GET" : String) ≠ "POST" := by decide
    rcases hr with rfl | rfl <;> exact hne
  by_cases c1 : sm.Base.TypeName = "grayscale8"
  · have d := h1 c1
    exact ⟨_, by simp only [c1, true_or, if_true, ne_eq, d, not_false_eq_true]; rfl,
      by simp [printf], hpost⟩
  · by_cases c2 : sm.Base.TypeName = "uint8blk"
    · have d := h2 c2
      exact ⟨_, by simp only [c2, or_true, if_true, ne_eq, d, not_false_eq_true]; rfl,
        by simp [printf], hpost⟩
    · by_cases c3 : sm.Base.TypeName = "labels64"
      · have d := h3 c3
        exact ⟨_, by simp only [c1, c2, c3, or_self, if_false, if_true, ne_eq, d,
          not_false_eq_true]; rfl, by simp [printf], hpost⟩
      · by_cases c4 : sm.Base.TypeName = "roi"
        · have d := h4 c4
          exact ⟨_, by simp only [c1, c2, c3, c4, or_self, if_false, if_true, ne_eq, d,
            not_false_eq_true]; rfl, by simp [printf], hpost⟩
        · exact ⟨_, by simp only [c1, c2, c3, c4, or_self, if_false]; rfl,
            by simp [printf], hpost⟩

/-- C5 at two pairs: a label volume sent to a byte-block destination, and a source of
unknown type. -/
theorem incompatible_pair_is_fatal_witness :
    (¬ Compatible "labels64" "uint8blk" ∧
      ∃ s1, transferData (envTypes "labels64" "uint8blk") "http://a/src" "http://b/dst" sys0
          = .exit 1 s1 ∧
        s1.log = [getRequest "http://a/src/info", getRequest "http://b/dst/info"]) ∧
    (¬ Compatible "keyvalue" "uint8blk" ∧
      ∃ s1, transferData (envTypes "keyvalue" "uint8blk") "http://a/src" "http://b/dst" sys0
          = .exit 1 s1 ∧
        s1.log = [getRequest "http://a/src/info", getRequest "http://b/dst/info"]) := by
  obtain ⟨s1, e1, l1, -⟩ := incompatible_pair_is_fatal (envTypes "labels64" "uint8blk")
    "http://a/src" "http://b/dst" sys0 ⟨baseOf "labels64", ""⟩ ⟨baseOf "uint8blk", ""⟩
    ⟨"source", "destination", rfl, rfl, rfl, rfl⟩ (by decide)
  obtain ⟨s2, e2, l2, -⟩ := incompatible_pair_is_fatal (envTypes "keyvalue" "uint8blk")
    "http://a/src" "http://b/dst" sys0 ⟨baseOf "keyvalue", ""⟩ ⟨baseOf "uint8blk", ""⟩
    ⟨"source", "destination", rfl, rfl, rfl, rfl⟩ (by decide)
  exact ⟨⟨by decide, s1, e1, l1⟩, ⟨by decide, s2, e2, l2⟩⟩

/-- For a blob source and a `uint8blk` destination `transferData` checks the pair and
returns: after the two `/info` reads nothing is read and nothing is written. -/
theorem blob_pair_returns_without_transfer (env : Env) (src dst : String) (s : Sys)
    (sm dm : Metadata) (hres : Resolves env s sm dm)
    (hsrc : sm.Base.TypeName = "grayscale8" ∨ sm.Base.TypeName = "uint8blk")
    (hdst : dm.Base.TypeName = "uint8blk") :
    transferData env src dst s
      = .ok () { s with log := s.log ++ [getRequest (src ++ "/info"),
                                          getRequest (dst ++ "/info")] } := by
  rw [transferData_resolved env src dst s sm dm hres]
  simp only [hsrc, hdst, if_true, ne_eq, not_true_eq_false, if_false, List.append_assoc,
    List.singleton_append]

/-- C6, the code at the failing input: source of type `grayscale8`, destination of type
`uint8blk`, every exchange answering 200. The pair is in the compatibility table, and
`transferData` returns normally having sent the two `/info` reads and nothing else: no
read of the data and no write. -/
theorem blob_copy_sends_no_data :
    Compatible "grayscale8" "uint8blk" ∧
    transferData (envTypes "grayscale8" "uint8blk") "http://a/src" "http://b/dst" sys0
      = .ok () { log := [getRequest "http://a/src/info", getRequest "http://b/dst/info"],
                 out := [] } :=
  ⟨by decide,
    blob_pair_returns_without_transfer (envTypes "grayscale8" "uint8blk")
      "http://a/src" "http://b/dst" sys0 ⟨baseOf "grayscale8", ""⟩ ⟨baseOf "uint8blk", ""⟩
      ⟨"source", "destination", rfl, rfl, rfl, rfl⟩ (Or.inl rfl) rfl⟩

/-! ## Fail-stop -/

theorem count_requestPairs (srcUrl dstUrl : String) (l : List Strip) :
    countMethod "GET" (l.flatMap (requestPair srcUrl dstUrl)) = l.length ∧
    countMethod "POST" (l.flatMap (requestPair srcUrl dstUrl)) = l.length := by
  unfold countMethod
  induction l with
  | nil => simp
  | cons st rest ih =>
    obtain ⟨ih1, ih2⟩ := ih
    have hne : ¬ (("POST" : String) = "GET") := by decide
    have hne2 : ¬ (("GET" : String) = "POST") := by decide
    constructor
    · rw [List.flatMap_cons, List.countP_append, ih1]
      simp [requestPair, List.countP_cons, hne]
      omega
    · rw [List.flatMap_cons, List.countP_append, ih2]
      simp [requestPair, List.countP_cons, hne2]
      omega

theorem plan_split {l : List Strip} {i : Nat} {st : Strip} (h : l[i]? = some st) :
    l = l.take i ++ st :: l.drop (i + 1) ∧ (l.take i).length = i := by
  obtain ⟨hi, hst⟩ := List.getElem?_eq_some.mp h
  refine ⟨?_, ?_⟩
  · rw [← hst, ← List.drop_eq_getElem_cons hi, List.take_append_drop]
  · rw [List.length_take]; omega

/-! ## Order of the transfers -/

theorem bandPlan_ordered {g : LabelExtended} (hg : Valid g) :
    (bandPlan g).Pairwise (TransferredBefore g) := by
  have hb := byPerStrip_nonneg hg
  unfold bandPlan
  rw [List.pairwise_flatMap]
  constructor
  · intro k _
    unfold bandLayer
    rw [List.pairwise_map]
    refine List.Pairwise.imp ?_ (List.pairwise_lt_range _)
    intro i j hij
    right
    have hij2 : (i : Int) + 1 ≤ (j : Int) := by omega
    have h1 : ((i : Int) + 1) * byPerStrip g ≤ (j : Int) * byPerStrip g :=
      mul_le_mul_of_nonneg_right hij2 hb
    have h2 : ((i : Int) + 1) * byPerStrip g = (i : Int) * byPerStrip g + byPerStrip g := by
      ring
    refine ⟨rfl, ?_, ?_, ?_⟩
    · simp only [bandStrip]; omega
    · simp only [bandStrip]; omega
    · intro hpos
      simp only [bandStrip]; omega
  · refine List.Pairwise.imp ?_ (List.pairwise_lt_range _)
    intro k1 k2 hk a ha b hb2
    left
    obtain ⟨n1, -, -, rfl⟩ := mem_bandLayer.mp ha
    obtain ⟨n2, -, -, rfl⟩ := mem_bandLayer.mp hb2
    simp only [bandStrip]
    omega

/-! ## Request addresses -/

theorem rawUrl_bandStrip (g : LabelExtended) (z n : Int) (base : String) :
    rawUrl base (bandStrip g z n)
      = base ++ addressSuffix g (bandStrip g z n).z (bandStrip g z n).by0
          (bandStrip g z n).by1 := by
  have e : g.MinIndex.i1 + n * byPerStrip g + byPerStrip g - 1
      - (g.MinIndex.i1 + n * byPerStrip g) + 1 = byPerStrip g := by ring
  simp only [rawUrl, addressSuffix, bandStrip, vx, vz, ox, e, String.append_assoc]


/-! ## Unsplit layers: one strip per layer -/

/-- When `MaxIndex[2]` is the largest 64-bit integer the condition `z <= maxIndex[2]`
holds for every `z`, so the outer loop of the program never ends. -/
theorem layerDone64_never (g : LabelExtended) (h : g.MaxIndex.i2 = 9223372036854775807) :
    ∀ (fuel : Nat) (z : Int), z ≤ 9223372036854775807 → layerDone64 g fuel z = false := by
  intro fuel
  induction fuel with
  | zero =>
    intro z hz
    show decide (¬ z ≤ g.MaxIndex.i2) = false
    rw [h]
    simp [hz]
  | succ fuel ih =>
    intro z hz
    have hle : z ≤ g.MaxIndex.i2 := by rw [h]; exact hz
    obtain ⟨-, hw⟩ := wrap64_fits (z + 1)
    show (if z ≤ g.MaxIndex.i2 then layerDone64 g fuel (wrap64 (z + 1)) else true) = false
    rw [if_pos hle]
    exact ih _ (by omega)

/-- C1, refuted as stated: one block of one voxel in layer `2^63 - 1` is a valid
geometry with a single Z layer and a layer of 8 bytes. After the strip of that layer
`z++` wraps to `-2^63`, which is again at most `MaxIndex[2]`: the program builds a second
strip, for a layer outside `MinIndex[2] .. MaxIndex[2]`, and its outer loop never ends
(it has not ended after the one pass that the number of layers allows, nor after any
other number of passes). With a status 500 on the fourth exchange the requests sent are
the metadata fetch, the pair of the first strip, and the read of the second strip at Z
origin `-2^63`. -/
theorem last_layer_index_never_ends :
    Valid geomZWrap ∧
    geomZWrap.MinIndex.i2 = geomZWrap.MaxIndex.i2 ∧
    vx geomZWrap * vy geomZWrap * vz geomZWrap * 8 = 8 ∧
    (planPrefix64 geomZWrap 2).map (fun st => st.z)
      = [9223372036854775807, -9223372036854775808] ∧
    (¬ ∃ fuel, layerDone64 geomZWrap fuel geomZWrap.MinIndex.i2 = true) ∧
    stripPlan64 geomZWrap = none ∧
    (sendLabels64 2 (envFailAt geomZWrap 3 500) ⟨baseOf "labels64", ""⟩
        ⟨baseOf "labelblk", ""⟩ "http://a/src" "http://b/dst" sys0).requests
      = [("GET", "http://a/src/info"),
         ("GET", "http://a/src/raw/0_1_2/1_1_1/0_0_9223372036854775807"),
         ("POST", "http://b/dst/raw/0_1_2/1_1_1/0_0_9223372036854775807"),
         ("GET", "http://a/src/raw/0_1_2/1_1_1/0_0_-9223372036854775808")] := by
  refine ⟨by decide, by decide, by decide, by decide, ?_, by decide, by decide⟩
  rintro ⟨fuel, h⟩
  have := layerDone64_never geomZWrap rfl fuel geomZWrap.MinIndex.i2 (by decide)
  rw [this] at h
  exact absurd h (by decide)

/-- C1, amended: on a valid geometry whose arithmetic does not overflow 64 bits and
whose full layer is at most 2,000,000,000 bytes, the loops of `sendLabels` end and build
exactly one strip per Z layer of `MinIndex[2] .. MaxIndex[2]`, in ascending order; that
strip covers the block rows `MinIndex[1] .. MaxIndex[1]` with Y size `ny * By` voxels and
the whole X range; and a run in which nothing fails sends, after the metadata fetch,
exactly one read and one write per layer, addressed at that strip. -/
theorem unsplit_layer_is_one_strip (g : LabelExtended) (hg : Valid g) (hr : InRange g)
    (hsize : vx g * vy g * vz g * 8 ≤ 2000000000) :
    strips64 g = 1 ∧
    (∀ z, g.MinIndex.i2 ≤ z → z ≤ g.MaxIndex.i2 →
      layerStrips64 g z = some [fullStrip g z]) ∧
    stripPlan64 g = some ((List.range (g.MaxIndex.i2 - g.MinIndex.i2 + 1).toNat).map
      (fun (k : Nat) => fullStrip g (g.MinIndex.i2 + (k : Int)))) ∧
    ∀ (fuel : Nat) (env : Env) (src dst : Metadata) (srcUrl dstUrl : String) (s : Sys)
      (m : LabelMetadata), layerCount g ≤ fuel → m.Extended = g → AllSucceed env s m →
      ∃ s1, sendLabels64 fuel env src dst srcUrl dstUrl s = .ok () s1 ∧
        s1.log.map Request.addr
          = s.log.map Request.addr ++ ("GET", srcUrl ++ "/info")
              :: (List.range (g.MaxIndex.i2 - g.MinIndex.i2 + 1).toNat).flatMap
                  (fun (k : Nat) =>
                    requestPair srcUrl dstUrl (fullStrip g (g.MinIndex.i2 + (k : Int)))) := by
  obtain ⟨hplan, hlayer⟩ := bandPlan_unsplit hsize
  obtain ⟨-, -, -, -, -, est, -, -⟩ := arith64_eq hg hr
  refine ⟨est.trans (strips_eq_one hsize).1, ?_, ?_, ?_⟩
  · intro z hz0 hz1
    rw [layerStrips64_inRange hg hr hz0 hz1, hlayer]
  · rw [stripPlan64_inRange hg hr, hplan]
  · intro fuel env src dst srcUrl dstUrl s m hfuel hm hrun
    obtain ⟨s1, e1, log1⟩ :=
      sendLabels64_all_ok hg hr fuel hfuel env src dst srcUrl dstUrl s m hm hrun
    refine ⟨s1, e1, ?_⟩
    rw [log1, hplan, List.flatMap_def, List.map_map, ← List.flatMap_def]
    rfl

/-- C1 amended, at the geometry of the spec: `MinIndex = (0,0,0)`, `MaxIndex = (1,1,0)`,
blocks of 32 voxels give one layer, one strip of 64 x 64 x 32 voxels at the origin, one
read and one write. -/
theorem unsplit_layer_is_one_strip_witness :
    Valid geomSmall ∧ InRange geomSmall ∧
    vx geomSmall * vy geomSmall * vz geomSmall * 8 = 1048576 ∧
    stripPlan64 geomSmall = some [⟨0, 0, 0, 1, 64, 64, 32, 0, 0, 0⟩] ∧
    ∃ s1, sendLabels64 1 (envOK geomSmall) ⟨baseOf "labels64", ""⟩
        ⟨baseOf "labelblk", ""⟩ "http://a/n/u/src" "http://b/n/u/dst" sys0 = .ok () s1 ∧
      s1.log.map Request.addr =
        [("GET", "http://a/n/u/src/info"),
         ("GET", "http://a/n/u/src/raw/0_1_2/64_64_32/0_0_0"),
         ("POST", "http://b/n/u/dst/raw/0_1_2/64_64_32/0_0_0")] := by
  have h := unsplit_layer_is_one_strip geomSmall (by decide) (by decide) (by decide)
  refine ⟨by decide, by decide, by decide, h.2.2.1.trans (by decide), ?_⟩
  obtain ⟨s1, e1, log1⟩ := h.2.2.2 1 (envOK geomSmall) ⟨baseOf "labels64", ""⟩
    ⟨baseOf "labelblk", ""⟩ "http://a/n/u/src" "http://b/n/u/dst" sys0 (labelsOf geomSmall)
    (by decide) rfl (envOK_allSucceed geomSmall sys0)
  refine ⟨s1, e1, ?_⟩
  rw [log1]
  decide

/-! ## Split layers: the strip count and the bands -/

/-- C2, refuted as stated: 8388608 x 8388608 blocks of 32 voxels are a valid geometry
whose layer has exactly 2^64 bytes, so `floor(size / 2000000000) + 1` is 9223372037. The
product `vx*vy*vz*8` of the program wraps to 0: it takes the layer for unsplit and builds
one strip of all 8388608 block rows, and a run in which nothing fails sends one read and
one write. -/
theorem wrapped_size_sends_one_strip :
    Valid geomWrapSize ∧
    vx geomWrapSize * vy geomWrapSize * vz geomWrapSize * 8 = 18446744073709551616 ∧
    (vx geomWrapSize * vy geomWrapSize * vz geomWrapSize * 8) / 2000000000 + 1 = 9223372037 ∧
    layerBytes64 geomWrapSize = 0 ∧
    strips64 geomWrapSize = 1 ∧
    layerStrips64 geomWrapSize 0
      = some [⟨0, 0, 0, 8388607, 268435456, 268435456, 32, 0, 0, 0⟩] ∧
    (sendLabels64 1 (envOK geomWrapSize) ⟨baseOf "labels64", ""⟩ ⟨baseOf "labelblk", ""⟩
        "http://a/src" "http://b/dst" sys0).returned = true ∧
    (sendLabels64 1 (envOK geomWrapSize) ⟨baseOf "labels64", ""⟩ ⟨baseOf "labelblk", ""⟩
        "http://a/src" "http://b/dst" sys0).requests
      = [("GET", "http://a/src/info"),
         ("GET", "http://a/src/raw/0_1_2/268435456_268435456_32/0_0_0"),
         ("POST", "http://b/dst/raw/0_1_2/268435456_268435456_32/0_0_0")] := by
  refine ⟨by decide, by decide, by decide, by decide, by decide, by decide, by decide,
    by decide⟩

/-- C2, amended: on a valid geometry whose arithmetic does not overflow 64 bits and
whose full layer exceeds 2,000,000,000 bytes, the strip count computed by `sendLabels` is
`floor(size / 2000000000) + 1`; the loops end and the inner loop builds exactly that many
strips in every Z layer of `MinIndex[2] .. MaxIndex[2]` (the early `break` never cuts the
layer short), band `n` starting at block row `MinIndex[1] + n * byPerStrip`; the block
row ranges of the strips of one layer are pairwise disjoint; and when `strips` divides
`ny` their union is exactly `MinIndex[1] .. MaxIndex[1]`. A run in which nothing fails
sends one read and one write for each of these strips, layer after layer. -/
theorem split_layer_strips (g : LabelExtended) (hg : Valid g) (hr : InRange g)
    (hsize : vx g * vy g * vz g * 8 > 2000000000) :
    strips64 g = (vx g * vy g * vz g * 8) / 2000000000 + 1 ∧
    byPerStrip64 g = ny g / strips64 g ∧
    (∃ plan, stripPlan64 g = some plan ∧
      (plan.length : Int) = (g.MaxIndex.i2 - g.MinIndex.i2 + 1) * strips64 g ∧
      ∀ (fuel : Nat) (env : Env) (src dst : Metadata) (srcUrl dstUrl : String) (s : Sys)
        (m : LabelMetadata), layerCount g ≤ fuel → m.Extended = g → AllSucceed env s m →
        ∃ s1, sendLabels64 fuel env src dst srcUrl dstUrl s = .ok () s1 ∧
          s1.log.map Request.addr
            = s.log.map Request.addr ++ ("GET", srcUrl ++ "/info")
                :: plan.flatMap (requestPair srcUrl dstUrl)) ∧
    ∀ z, g.MinIndex.i2 ≤ z → z ≤ g.MaxIndex.i2 → ∃ l, layerStrips64 g z = some l ∧
      (l.length : Int) = strips64 g ∧
      (∀ (n : Nat) (st : Strip), l[n]? = some st →
        st.z = z ∧ st.n = n ∧
        st.by0 = g.MinIndex.i1 + n * byPerStrip64 g ∧
        st.by1 = st.by0 + byPerStrip64 g - 1) ∧
      l.Pairwise (fun a b => ∀ r, ¬ (a.covers r ∧ b.covers r)) ∧
      (strips64 g ∣ ny g →
        ∀ r, (∃ st ∈ l, st.covers r) ↔ (g.MinIndex.i1 ≤ r ∧ r ≤ g.MaxIndex.i1)) := by
  have hs := strips_pos g
  have hz : g.MinIndex.i2 ≤ g.MaxIndex.i2 := hg.2.2.1
  obtain ⟨-, -, -, -, -, est, ebp, -⟩ := arith64_eq hg hr
  rw [est, ebp]
  refine ⟨strips_eq_split hsize, byPerStrip_eq_ediv hg,
    ⟨bandPlan g, stripPlan64_inRange hg hr, ?_, ?_⟩, ?_⟩
  · rw [length_bandPlan]
    push_cast
    rw [Int.toNat_of_nonneg (by omega), Int.toNat_of_nonneg (by omega)]
  · intro fuel env src dst srcUrl dstUrl s m hfuel hm hrun
    exact sendLabels64_all_ok hg hr fuel hfuel env src dst srcUrl dstUrl s m hm hrun
  · intro z hz0 hz1
    refine ⟨bandLayer g z, layerStrips64_inRange hg hr hz0 hz1, length_bandLayer g z, ?_,
      bandLayer_pairwise_disjoint hg z, ?_⟩
    · intro n st hst
      unfold bandLayer at hst
      rw [List.getElem?_map] at hst
      cases hn : (List.range (strips g).toNat)[n]? with
      | none => rw [hn] at hst; exact absurd hst (by simp)
      | some k =>
        rw [hn] at hst
        simp only [Option.map_some', Option.some.injEq] at hst
        obtain ⟨hlt, hk⟩ := List.getElem?_eq_some.mp hn
        rw [List.getElem_range] at hk
        subst hk
        subst hst
        refine ⟨rfl, rfl, rfl, rfl⟩
    · intro hdvd r
      have hmul : strips g * byPerStrip g = ny g := by
        rw [byPerStrip_eq_ediv hg]
        exact Int.mul_ediv_cancel' hdvd
      have hny : ny g = g.MaxIndex.i1 - g.MinIndex.i1 + 1 := rfl
      rw [bandLayer_covers hg z r, hmul]
      omega

/-- C2 amended, at a layer of 2,500,000,000 bytes: two strips, block rows 0..49 and
50..99. -/
theorem split_layer_strips_witness :
    Valid geomSplit ∧ InRange geomSplit ∧
    vx geomSplit * vy geomSplit * vz geomSplit * 8 = 2500000000 ∧
    strips64 geomSplit = 2 ∧
    layerStrips64 geomSplit 0 =
      some [⟨0, 0, 0, 49, 1250, 2500, 50, 0, 0, 0⟩, ⟨0, 1, 50, 99, 1250, 2500, 50, 0, 2500, 0⟩] ∧
    ([⟨0, 0, 0, 49, 1250, 2500, 50, 0, 0, 0⟩,
      ⟨0, 1, 50, 99, 1250, 2500, 50, 0, 2500, 0⟩] : List Strip).Pairwise
        (fun a b => ∀ r, ¬ (a.covers r ∧ b.covers r)) ∧
    ∀ r, (∃ st ∈ ([⟨0, 0, 0, 49, 1250, 2500, 50, 0, 0, 0⟩,
        ⟨0, 1, 50, 99, 1250, 2500, 50, 0, 2500, 0⟩] : List Strip), st.covers r)
      ↔ (0 ≤ r ∧ r ≤ 99) := by
  have h := split_layer_strips geomSplit (by decide) (by decide) (by decide)
  obtain ⟨l, hl, -, -, hdis, hcov⟩ := h.2.2.2 0 (by decide) (by decide)
  have hl2 : layerStrips64 geomSplit 0 =
      some [⟨0, 0, 0, 49, 1250, 2500, 50, 0, 0, 0⟩,
        ⟨0, 1, 50, 99, 1250, 2500, 50, 0, 2500, 0⟩] := by decide
  rw [hl2] at hl
  simp only [Option.some.injEq] at hl
  subst hl
  exact ⟨by decide, by decide, by decide, h.1.trans (by decide), hl2, hdis,
    hcov ⟨50, by decide⟩⟩

/-! ## Fail-stop transfer -/

/-- C7: for every geometry, valid or not, and with or without overflow, let `st` be the
`k`-th strip (counting from 1) that the loops of `sendLabels` build, and take any run in
which the metadata is decoded. If the exchanges of strips `1 .. k-1` succeed and the read
of strip `k` answers a status other than 200, `sendLabels` ends the process with
`os.Exit(1)` having sent, after the metadata fetch, the read-write pairs of strips
`1 .. k-1` in the order they are built and then the read of strip `k` (`k` reads, `k-1`
writes), and the last message names the receive side. If instead that read succeeds and
the write of strip `k` answers a status other than 200, the process ends with
`os.Exit(1)` after the pairs of strips `1 .. k` (`k` reads, `k` writes), the last
message naming the send side. The strips are those built within `fuel` passes of the
outer loop, for any `fuel`; when the loops end, every fuel from the number of layers on
gives all of them. -/
theorem fail_stop_transfer (g : LabelExtended) (fuel : Nat) :
    (∀ plan, stripPlan64 g = some plan → layerCount g ≤ fuel → planPrefix64 g fuel = plan) ∧
    ∀ (k : Nat) (st : Strip), 1 ≤ k → (planPrefix64 g fuel)[k - 1]? = some st →
    ∀ (env : Env) (src dst : Metadata) (srcUrl dstUrl : String) (s : Sys) (m : LabelMetadata)
      (code : Int), m.Extended = g → InfoDecodes env s m →
      ((∀ j, j < 2 * (k - 1) → (env.http (s.log.length + 1 + j)).succeeds) →
        (env.http (s.log.length + 1 + 2 * (k - 1))).badStatus code →
        ∃ s1 rest, sendLabels64 fuel env src dst srcUrl dstUrl s = .exit 1 s1 ∧
          s1.log.map Request.addr
            = s.log.map Request.addr ++ ("GET", srcUrl ++ "/info") :: rest ∧
          rest = ((planPrefix64 g fuel).take (k - 1)).flatMap (requestPair srcUrl dstUrl)
                  ++ [("GET", rawUrl srcUrl st)] ∧
          countMethod "GET" rest = k ∧ countMethod "POST" rest = k - 1 ∧
          s1.out.getLast? = some ("Bad status on receiving data: " ++ toString code ++ "\n")) ∧
      ((∀ j, j < 2 * (k - 1) + 1 → (env.http (s.log.length + 1 + j)).succeeds) →
        (env.http (s.log.length + 1 + 2 * (k - 1) + 1)).badStatus code →
        ∃ s1 rest, sendLabels64 fuel env src dst srcUrl dstUrl s = .exit 1 s1 ∧
          s1.log.map Request.addr
            = s.log.map Request.addr ++ ("GET", srcUrl ++ "/info") :: rest ∧
          rest = ((planPrefix64 g fuel).take k).flatMap (requestPair srcUrl dstUrl) ∧
          countMethod "GET" rest = k ∧ countMethod "POST" rest = k ∧
          s1.out.getLast? = some ("Bad status on sending data: " ++ toString code ++ "\n")) := by
  refine ⟨fun plan hplan hfuel => (planPrefix64_of_stripPlan64 g plan hplan fuel hfuel).1, ?_⟩
  intro k st hk hst env src dst srcUrl dstUrl s m code hm hinfo
  subst hm
  obtain ⟨s0, e0, len0, log0⟩ := sendLabels64_eq fuel env src dst srcUrl dstUrl s m hinfo
  obtain ⟨hsplit, hlen⟩ := plan_split hst
  have hcount := count_requestPairs srcUrl dstUrl ((planPrefix64 m.Extended fuel).take (k - 1))
  have hGP : ¬ (("GET" : String) = "POST") := by decide
  constructor
  · intro hpre hbad
    obtain ⟨s1, e1, log1, out1⟩ := runPlan_read_bad env srcUrl dstUrl
      ((planPrefix64 m.Extended fuel).take (k - 1)) st
      ((planPrefix64 m.Extended fuel).drop (k - 1 + 1)) s0 code
      (by intro j hj; rw [len0]; exact hpre j (by rw [hlen] at hj; exact hj))
      (by rw [len0, hlen]; exact hbad)
    rw [← hsplit] at e1
    refine ⟨s1, _, by rw [e0, e1]; rfl, ?_, rfl, ?_, ?_, out1⟩
    · rw [log1, log0]; simp
    · unfold countMethod at hcount ⊢
      rw [List.countP_append, hcount.1, hlen]
      simp only [List.countP_cons, List.countP_nil, decide_True, if_true]
      omega
    · unfold countMethod at hcount ⊢
      rw [List.countP_append, hcount.2, hlen]
      simp [List.countP_cons, hGP]
  · intro hpre hbad
    obtain ⟨s1, e1, log1, out1⟩ := runPlan_write_bad env srcUrl dstUrl
      ((planPrefix64 m.Extended fuel).take (k - 1)) st
      ((planPrefix64 m.Extended fuel).drop (k - 1 + 1)) s0 code
      (by intro j hj; rw [len0]; exact hpre j (by rw [hlen] at hj; exact hj))
      (by rw [len0, hlen]; exact hbad)
    rw [← hsplit] at e1
    have htake : (planPrefix64 m.Extended fuel).take k
        = (planPrefix64 m.Extended fuel).take (k - 1) ++ [st] := by
      have hk1 : k = (k - 1) + 1 := by omega
      conv_lhs => rw [hk1]
      rw [List.take_succ, hst]
      rfl
    have hflat : ((planPrefix64 m.Extended fuel).take k).flatMap (requestPair srcUrl dstUrl)
        = ((planPrefix64 m.Extended fuel).take (k - 1)).flatMap (requestPair srcUrl dstUrl)
            ++ requestPair srcUrl dstUrl st := by
      rw [htake, List.flatMap_append]
      simp
    have hcount2 := count_requestPairs srcUrl dstUrl ((planPrefix64 m.Extended fuel).take k)
    have hlenk : ((planPrefix64 m.Extended fuel).take k).length = k := by
      rw [htake, List.length_append, hlen]
      simp; omega
    refine ⟨s1, _, by rw [e0, e1]; rfl, ?_, rfl, ?_, ?_, out1⟩
    · rw [log1, log0, hflat]; simp
    · rw [hcount2.1, hlenk]
    · rw [hcount2.2, hlenk]

/-- C7 at three runs. At the layer of 2,500,000,000 bytes (two strips) a status 500 on the
read of the second strip stops the run after four requests, the first strip written, and
a status 503 on the write of the second strip stops it after five. At the geometry whose
layer index wraps, a status 500 on the read of the third strip built stops the run after
six requests. -/
theorem fail_stop_transfer_witness :
    (planPrefix64 geomSplit 1 =
      [⟨0, 0, 0, 49, 1250, 2500, 50, 0, 0, 0⟩, ⟨0, 1, 50, 99, 1250, 2500, 50, 0, 2500, 0⟩]) ∧
    (∃ s1, sendLabels64 1 (envFailAt geomSplit 3 500) ⟨baseOf "labels64", ""⟩
        ⟨baseOf "labelblk", ""⟩ "http://a/src" "http://b/dst" sys0 = .exit 1 s1 ∧
      s1.log.map Request.addr =
        [("GET", "http://a/src/info"),
         ("GET", "http://a/src/raw/0_1_2/1250_2500_50/0_0_0"),
         ("POST", "http://b/dst/raw/0_1_2/1250_2500_50/0_0_0"),
         ("GET", "http://a/src/raw/0_1_2/1250_2500_50/0_2500_0")] ∧
      s1.out.getLast? = some "Bad status on receiving data: 500\n") ∧
    (∃ s1, sendLabels64 1 (envFailAt geomSplit 4 503) ⟨baseOf "labels64", ""⟩
        ⟨baseOf "labelblk", ""⟩ "http://a/src" "http://b/dst" sys0 = .exit 1 s1 ∧
      s1.log.map Request.addr =
        [("GET", "http://a/src/info"),
         ("GET", "http://a/src/raw/0_1_2/1250_2500_50/0_0_0"),
         ("POST", "http://b/dst/raw/0_1_2/1250_2500_50/0_0_0"),
         ("GET", "http://a/src/raw/0_1_2/1250_2500_50/0_2500_0"),
         ("POST", "http://b/dst/raw/0_1_2/1250_2500_50/0_2500_0")] ∧
      s1.out.getLast? = some "Bad status on sending data: 503\n") ∧
    (∃ s1, sendLabels64 3 (envFailAt geomZWrap 5 500) ⟨baseOf "labels64", ""⟩
        ⟨baseOf "labelblk", ""⟩ "http://a/src" "http://b/dst" sys0 = .exit 1 s1 ∧
      s1.log.map Request.addr =
        [("GET", "http://a/src/info"),
         ("GET", "http://a/src/raw/0_1_2/1_1_1/0_0_9223372036854775807"),
         ("POST", "http://b/dst/raw/0_1_2/1_1_1/0_0_9223372036854775807"),
         ("GET", "http://a/src/raw/0_1_2/1_1_1/0_0_-9223372036854775808"),
         ("POST", "http://b/dst/raw/0_1_2/1_1_1/0_0_-9223372036854775808"),
         ("GET", "http://a/src/raw/0_1_2/1_1_1/0_0_-9223372036854775807")] ∧
      s1.out.getLast? = some "Bad status on receiving data: 500\n") := by
  have hsplit := (fail_stop_transfer geomSplit 1).2 2
    ⟨0, 1, 50, 99, 1250, 2500, 50, 0, 2500, 0⟩ (by decide) (by decide)
  have hwrap := (fail_stop_transfer geomZWrap 3).2 3
    ⟨-9223372036854775807, 0, 0, 0, 1, 1, 1, 0, 0, -9223372036854775807⟩ (by decide)
    (by decide)
  have hread := (hsplit (envFailAt geomSplit 3 500) ⟨baseOf "labels64", ""⟩
    ⟨baseOf "labelblk", ""⟩ "http://a/src" "http://b/dst" sys0 (labelsOf geomSplit) 500 rfl
    ⟨"payload", rfl, rfl⟩).1
  have hwrite := (hsplit (envFailAt geomSplit 4 503) ⟨baseOf "labels64", ""⟩
    ⟨baseOf "labelblk", ""⟩ "http://a/src" "http://b/dst" sys0 (labelsOf geomSplit) 503 rfl
    ⟨"payload", rfl, rfl⟩).2
  have hread3 := (hwrap (envFailAt geomZWrap 5 500) ⟨baseOf "labels64", ""⟩
    ⟨baseOf "labelblk", ""⟩ "http://a/src" "http://b/dst" sys0 (labelsOf geomZWrap) 500 rfl
    ⟨"payload", rfl, rfl⟩).1
  obtain ⟨s1, rest1, e1, log1, hrest1, -, -, out1⟩ := hread
    (by intro j hj; interval_cases j <;> decide) ⟨by decide, .data "", rfl⟩
  obtain ⟨s2, rest2, e2, log2, hrest2, -, -, out2⟩ := hwrite
    (by intro j hj; interval_cases j <;> decide) ⟨by decide, .data "", rfl⟩
  obtain ⟨s3, rest3, e3, log3, hrest3, -, -, out3⟩ := hread3
    (by intro j hj; interval_cases j <;> decide) ⟨by decide, .data "", rfl⟩
  subst hrest1
  subst hrest2
  subst hrest3
  exact ⟨by decide, ⟨s1, e1, log1.trans (by decide), out1.trans (by decide)⟩,
    ⟨s2, e2, log2.trans (by decide), out2.trans (by decide)⟩,
    ⟨s3, e3, log3.trans (by decide), out3.trans (by decide)⟩⟩

/-! ## Order of the transfers, on the program -/

/-- C8, refuted as stated, at two valid geometries. In the one-row layer of fourteen
strips, where nothing overflows, the first two strips lie in the same layer, have
counters 0 and 1, the second starts at `MinIndex[1] + 1 * byPerStrip`, and its start is
not greater than the start of the first. At the geometry whose only layer has index
`2^63 - 1`, the second strip the program transfers lies in layer `-2^63`, below the
first. -/
theorem band_origin_not_strictly_ascending :
    (Valid geomWide ∧ InRange geomWide ∧
      ∃ plan a b, stripPlan64 geomWide = some plan ∧ plan[0]? = some a ∧ plan[1]? = some b ∧
        a.z = b.z ∧ a.n = 0 ∧ b.n = 1 ∧
        b.by0 = geomWide.MinIndex.i1 + 1 * byPerStrip64 geomWide ∧
        ¬ (a.by0 < b.by0) ∧
        (sendLabels64 1 (envOK geomWide) ⟨baseOf "labels64", ""⟩ ⟨baseOf "labelblk", ""⟩
            "http://a/src" "http://b/dst" sys0).requests
          = ("GET", "http://a/src/info")
              :: plan.flatMap (requestPair "http://a/src" "http://b/dst")) ∧
    (Valid geomZWrap ∧
      (planPrefix64 geomZWrap 2).map (fun st => st.z)
        = [9223372036854775807, -9223372036854775808] ∧
      (sendLabels64 2 (envFailAt geomZWrap 3 500) ⟨baseOf "labels64", ""⟩
          ⟨baseOf "labelblk", ""⟩ "http://a/src" "http://b/dst" sys0).requests
        = [("GET", "http://a/src/info"),
           ("GET", "http://a/src/raw/0_1_2/1_1_1/0_0_9223372036854775807"),
           ("POST", "http://b/dst/raw/0_1_2/1_1_1/0_0_9223372036854775807"),
           ("GET", "http://a/src/raw/0_1_2/1_1_1/0_0_-9223372036854775808")]) := by
  have hv : Valid geomWide := by decide
  have hr : InRange geomWide := by decide
  obtain ⟨s1, e1, log1⟩ := sendLabels64_all_ok hv hr 1 (by decide) (envOK geomWide)
    ⟨baseOf "labels64", ""⟩ ⟨baseOf "labelblk", ""⟩ "http://a/src" "http://b/dst" sys0
    (labelsOf geomWide) rfl (envOK_allSucceed geomWide sys0)
  refine ⟨⟨hv, hr, bandPlan geomWide, ⟨0, 0, 0, -1, 3200000, 0, 32, 0, 0, 0⟩,
    ⟨0, 1, 0, -1, 3200000, 0, 32, 0, 0, 0⟩, stripPlan64_inRange hv hr, by decide, by decide,
    rfl, rfl, rfl, by decide, by decide, ?_⟩, by decide, by decide, by decide⟩
  rw [e1]
  exact log1

/-- C8, amended: on a valid geometry whose arithmetic does not overflow 64 bits, the
loops of `sendLabels` end and visit the strips layer by layer in ascending Z and, within
a layer, in ascending counter `n`, strip `n` starting at block row
`MinIndex[1] + n * byPerStrip`; that start is never smaller than the start of an earlier
strip of the layer and is strictly greater when the band width is at least 1. A run in
which nothing fails sends, after the metadata fetch, the read of each strip immediately
followed by its write, in exactly that order. -/
theorem transfer_order (g : LabelExtended) (hg : Valid g) (hr : InRange g) :
    ∃ plan, stripPlan64 g = some plan ∧
      plan = (List.range (g.MaxIndex.i2 - g.MinIndex.i2 + 1).toNat).flatMap
        (fun (k : Nat) => (List.range (strips64 g).toNat).map
          (fun (n : Nat) => bandStrip g (g.MinIndex.i2 + (k : Int)) (n : Int))) ∧
      byPerStrip64 g = byPerStrip g ∧
      plan.Pairwise (TransferredBefore g) ∧
      (∀ st ∈ plan, st.by0 = g.MinIndex.i1 + st.n * byPerStrip64 g) ∧
      ∀ (fuel : Nat) (env : Env) (src dst : Metadata) (srcUrl dstUrl : String) (s : Sys)
        (m : LabelMetadata), layerCount g ≤ fuel → m.Extended = g → AllSucceed env s m →
        ∃ s1, sendLabels64 fuel env src dst srcUrl dstUrl s = .ok () s1 ∧
          s1.log.map Request.addr
            = s.log.map Request.addr ++ ("GET", srcUrl ++ "/info")
                :: plan.flatMap (requestPair srcUrl dstUrl) := by
  obtain ⟨-, -, -, -, -, est, ebp, -⟩ := arith64_eq hg hr
  rw [est, ebp]
  refine ⟨bandPlan g, stripPlan64_inRange hg hr, rfl, rfl, bandPlan_ordered hg, ?_, ?_⟩
  · intro st hst
    obtain ⟨z, -, -, hz⟩ := mem_bandPlan.mp hst
    obtain ⟨n, -, -, rfl⟩ := mem_bandLayer.mp hz
    rfl
  · intro fuel env src dst srcUrl dstUrl s m hfuel hm hrun
    exact sendLabels64_all_ok hg hr fuel hfuel env src dst srcUrl dstUrl s m hm hrun

/-- C8 amended, at the layer of 2,500,000,000 bytes: strip 0 (rows from 0) then strip 1
(rows from 50), each read followed by its write. -/
theorem transfer_order_witness :
    Valid geomSplit ∧ InRange geomSplit ∧
    ∃ s1, sendLabels64 1 (envOK geomSplit) ⟨baseOf "labels64", ""⟩ ⟨baseOf "labelblk", ""⟩
        "http://a/src" "http://b/dst" sys0 = .ok () s1 ∧
      s1.log.map Request.addr =
        [("GET", "http://a/src/info"),
         ("GET", "http://a/src/raw/0_1_2/1250_2500_50/0_0_0"),
         ("POST", "http://b/dst/raw/0_1_2/1250_2500_50/0_0_0"),
         ("GET", "http://a/src/raw/0_1_2/1250_2500_50/0_2500_0"),
         ("POST", "http://b/dst/raw/0_1_2/1250_2500_50/0_2500_0")] := by
  obtain ⟨plan, -, hplan, -, -, -, hrun⟩ := transfer_order geomSplit (by decide) (by decide)
  obtain ⟨s1, e1, log1⟩ := hrun 1 (envOK geomSplit) ⟨baseOf "labels64", ""⟩
    ⟨baseOf "labelblk", ""⟩ "http://a/src" "http://b/dst" sys0 (labelsOf geomSplit)
    (by decide) rfl (envOK_allSucceed geomSplit sys0)
  subst hplan
  exact ⟨by decide, by decide, s1, e1, log1.trans (by decide)⟩

/-! ## Request addresses, on the program -/

/-- C9, refuted as stated: one block at X index `2^62` with X block size 4 is a valid
geometry. The origin `MinIndex[0] * Bx` of the claim is `2^64`, so its suffix is
`/raw/0_1_2/4_1_1/18446744073709551616_0_0`; the product wraps to 0 in the program, which
reads from and writes to `/raw/0_1_2/4_1_1/0_0_0`. -/
theorem x_origin_wraps :
    Valid geomXWrap ∧
    stripPlan64 geomXWrap = some [⟨0, 0, 0, 0, 4, 1, 1, 0, 0, 0⟩] ∧
    addressSuffix geomXWrap 0 0 0 = "/raw/0_1_2/4_1_1/18446744073709551616_0_0" ∧
    requestPair "http://a/src" "http://b/dst" ⟨0, 0, 0, 0, 4, 1, 1, 0, 0, 0⟩
      = [("GET", "http://a/src/raw/0_1_2/4_1_1/0_0_0"),
         ("POST", "http://b/dst/raw/0_1_2/4_1_1/0_0_0")] ∧
    rawUrl "http://a/src" ⟨0, 0, 0, 0, 4, 1, 1, 0, 0, 0⟩
      ≠ "http://a/src" ++ addressSuffix geomXWrap 0 0 0 ∧
    (sendLabels64 1 (envOK geomXWrap) ⟨baseOf "labels64", ""⟩ ⟨baseOf "labelblk", ""⟩
        "http://a/src" "http://b/dst" sys0).requests
      = [("GET", "http://a/src/info"),
         ("GET", "http://a/src/raw/0_1_2/4_1_1/0_0_0"),
         ("POST", "http://b/dst/raw/0_1_2/4_1_1/0_0_0")] := by
  refine ⟨by decide, by decide, by decide, by decide, by decide, by decide⟩

/-- C9, amended: on a valid geometry whose arithmetic does not overflow 64 bits, for
every strip built by `sendLabels` (block rows `by0 .. by1` of layer `z`) the read URL
and the write URL are the source and the destination base followed by the same suffix
`/raw/0_1_2/<sizeX>_<sizeY>_<sizeZ>/<originX>_<originY>_<originZ>` with size
`(nx*Bx, (by1-by0+1)*By, Bz)` and origin `(MinIndex[0]*Bx, by0*By, z*Bz)`; a run in which
nothing fails sends exactly these requests. -/
theorem request_addresses (g : LabelExtended) (hg : Valid g) (hr : InRange g) :
    ∃ plan, stripPlan64 g = some plan ∧
      (∀ st ∈ plan, ∀ srcUrl dstUrl : String,
        requestPair srcUrl dstUrl st
          = [("GET", srcUrl ++ addressSuffix g st.z st.by0 st.by1),
             ("POST", dstUrl ++ addressSuffix g st.z st.by0 st.by1)]) ∧
      ∀ (fuel : Nat) (env : Env) (src dst : Metadata) (srcUrl dstUrl : String) (s : Sys)
        (m : LabelMetadata), layerCount g ≤ fuel → m.Extended = g → AllSucceed env s m →
        ∃ s1, sendLabels64 fuel env src dst srcUrl dstUrl s = .ok () s1 ∧
          s1.log.map Request.addr
            = s.log.map Request.addr ++ ("GET", srcUrl ++ "/info")
                :: plan.flatMap (fun st =>
                    [("GET", srcUrl ++ addressSuffix g st.z st.by0 st.by1),
                     ("POST", dstUrl ++ addressSuffix g st.z st.by0 st.by1)]) := by
  have haddr : ∀ st ∈ bandPlan g, ∀ srcUrl dstUrl : String,
      requestPair srcUrl dstUrl st
        = [("GET", srcUrl ++ addressSuffix g st.z st.by0 st.by1),
           ("POST", dstUrl ++ addressSuffix g st.z st.by0 st.by1)] := by
    intro st hst srcUrl dstUrl
    obtain ⟨z, -, -, hz⟩ := mem_bandPlan.mp hst
    obtain ⟨n, -, -, rfl⟩ := mem_bandLayer.mp hz
    unfold requestPair
    rw [rawUrl_bandStrip, rawUrl_bandStrip]
  refine ⟨bandPlan g, stripPlan64_inRange hg hr, haddr, ?_⟩
  intro fuel env src dst srcUrl dstUrl s m hfuel hm hrun
  obtain ⟨s1, e1, log1⟩ :=
    sendLabels64_all_ok hg hr fuel hfuel env src dst srcUrl dstUrl s m hm hrun
  refine ⟨s1, e1, ?_⟩
  rw [log1, List.flatMap_def, List.flatMap_def,
    List.map_congr_left (fun st hst => haddr st hst srcUrl dstUrl)]

/-- C9 amended, at the geometry of the spec: the one strip is read from and written to
the suffix `/raw/0_1_2/64_64_32/0_0_0`. -/
theorem request_addresses_witness :
    Valid geomSmall ∧ InRange geomSmall ∧
    addressSuffix geomSmall 0 0 1 = "/raw/0_1_2/64_64_32/0_0_0" ∧
    ∃ plan, stripPlan64 geomSmall = some plan ∧
      plan.map (requestPair "http://a/src" "http://b/dst") =
        [[("GET", "http://a/src/raw/0_1_2/64_64_32/0_0_0"),
          ("POST", "http://b/dst/raw/0_1_2/64_64_32/0_0_0")]] := by
  obtain ⟨plan, hplan, haddr, -⟩ := request_addresses geomSmall (by decide) (by decide)
  have h2 : stripPlan64 geomSmall = some [⟨0, 0, 0, 1, 64, 64, 32, 0, 0, 0⟩] := by decide
  refine ⟨by decide, by decide, by decide, plan, hplan, ?_⟩
  rw [h2] at hplan
  simp only [Option.some.injEq] at hplan
  subst hplan
  rw [List.map_cons, List.map_nil,
    haddr ⟨0, 0, 0, 1, 64, 64, 32, 0, 0, 0⟩ (List.mem_singleton.mpr rfl)]
  decide

/-! ## The coverage gap, on the program -/

/-- C10, refuted as stated: 9223372038105 x 2 blocks of 50 voxels are a valid geometry
with `ny = 2` whose layer has 2^64 + 2,500,448,384 bytes, so the strip count
`floor(size / 2000000000) + 1` is 9223372039, larger than `ny`, and
`floor(ny / strips)` is 0: by the claim every strip has Y size 0 and no row is
transferred. The product `vx*vy*vz*8` of the program wraps to 2,500,448,384: it builds two
strips of one block row each, Y size 50, which cover rows 0 and 1, the whole layer. -/
theorem wrapped_size_covers_all_rows :
    Valid geomWrapTwo ∧ ny geomWrapTwo = 2 ∧
    vx geomWrapTwo * vy geomWrapTwo * vz geomWrapTwo * 8 = 18446744076210000000 ∧
    (vx geomWrapTwo * vy geomWrapTwo * vz geomWrapTwo * 8) / 2000000000 + 1 = 9223372039 ∧
    strips geomWrapTwo = 9223372039 ∧ strips geomWrapTwo > ny geomWrapTwo ∧
    ny geomWrapTwo / strips geomWrapTwo = 0 ∧
    layerBytes64 geomWrapTwo = 2500448384 ∧ strips64 geomWrapTwo = 2 ∧
    byPerStrip64 geomWrapTwo = 1 ∧
    layerStrips64 geomWrapTwo 0
      = some [⟨0, 0, 0, 0, 461168601905250, 50, 50, 0, 0, 0⟩,
              ⟨0, 1, 1, 1, 461168601905250, 50, 50, 0, 50, 0⟩] ∧
    (∃ st ∈ ([⟨0, 0, 0, 0, 461168601905250, 50, 50, 0, 0, 0⟩,
              ⟨0, 1, 1, 1, 461168601905250, 50, 50, 0, 50, 0⟩] : List Strip),
      st.covers geomWrapTwo.MinIndex.i1) ∧
    (∃ st ∈ ([⟨0, 0, 0, 0, 461168601905250, 50, 50, 0, 0, 0⟩,
              ⟨0, 1, 1, 1, 461168601905250, 50, 50, 0, 50, 0⟩] : List Strip),
      st.covers geomWrapTwo.MaxIndex.i1) := by
  refine ⟨by decide, by decide, by decide, by decide, by decide, by decide, by decide,
    by decide, by decide, by decide, by decide, by decide, by decide⟩

/-- C10, amended: on a valid geometry whose arithmetic does not overflow 64 bits, the
block rows covered by the strips of one Z layer are exactly
`MinIndex[1] .. MinIndex[1] + strips * floor(ny / strips) - 1`, a beginning of
`MinIndex[1] .. MaxIndex[1]`; the `ny mod strips` rows after it, up to `MaxIndex[1]`,
lie in no strip; and when `strips > ny` the band width is 0, every strip of the layer
has Y size 0 and covers no row. Every strip the loops build is addressed at Y origin
`by0 * By` with Y size `(by1 - by0 + 1) * By` and lies inside these rows, and in every
run, whatever the network answers, the requests sent after the metadata fetch are a
beginning of the requests of these strips: the rows left out are never transferred. -/
theorem layer_coverage_gap (g : LabelExtended) (hg : Valid g) (hr : InRange g) :
    byPerStrip64 g = ny g / strips64 g ∧
    (∃ plan, stripPlan64 g = some plan ∧
      (∀ st ∈ plan,
        st.oy = st.by0 * g.BlockSize.i1 ∧
        st.vy = (st.by1 - st.by0 + 1) * g.BlockSize.i1 ∧
        g.MinIndex.i1 ≤ st.by0 ∧
        st.by1 ≤ g.MinIndex.i1 + strips64 g * (ny g / strips64 g) - 1) ∧
      ∀ (fuel : Nat) (env : Env) (src dst : Metadata) (srcUrl dstUrl : String) (s : Sys)
        (m : LabelMetadata), layerCount g ≤ fuel → m.Extended = g → InfoDecodes env s m →
        ∃ s1 rest, (sendLabels64 fuel env src dst srcUrl dstUrl s = .ok () s1 ∨
            sendLabels64 fuel env src dst srcUrl dstUrl s = .exit 1 s1) ∧
          s1.log.map Request.addr
            = s.log.map Request.addr ++ ("GET", srcUrl ++ "/info") :: rest ∧
          rest <+: plan.flatMap (requestPair srcUrl dstUrl)) ∧
    ∀ z, g.MinIndex.i2 ≤ z → z ≤ g.MaxIndex.i2 → ∃ l, layerStrips64 g z = some l ∧
      (∀ r, (∃ st ∈ l, st.covers r) ↔
        (g.MinIndex.i1 ≤ r ∧ r ≤ g.MinIndex.i1 + strips64 g * (ny g / strips64 g) - 1)) ∧
      g.MinIndex.i1 + strips64 g * (ny g / strips64 g) - 1 ≤ g.MaxIndex.i1 ∧
      g.MaxIndex.i1 - (g.MinIndex.i1 + strips64 g * (ny g / strips64 g) - 1)
        = ny g % strips64 g ∧
      (∀ r, g.MinIndex.i1 + strips64 g * (ny g / strips64 g) ≤ r → r ≤ g.MaxIndex.i1 →
        ¬ ∃ st ∈ l, st.covers r) ∧
      (strips64 g > ny g →
        byPerStrip64 g = 0 ∧ ∀ st ∈ l, st.vy = 0 ∧ ∀ r, ¬ st.covers r) := by
  obtain ⟨-, -, -, -, -, est, ebp, -⟩ := arith64_eq hg hr
  rw [est, ebp]
  have hs := strips_pos g
  have hny1 := ny_pos hg
  have hny : ny g = g.MaxIndex.i1 - g.MinIndex.i1 + 1 := rfl
  have hdiv := byPerStrip_eq_ediv hg
  have hb := byPerStrip_nonneg hg
  have hle := strips_mul_byPerStrip_le hg
  rw [hdiv] at hle
  have hmod : ny g % strips g = ny g - strips g * (ny g / strips g) := Int.emod_def _ _
  have hcovz : ∀ z r, (∃ st ∈ bandLayer g z, st.covers r) ↔
      (g.MinIndex.i1 ≤ r ∧ r ≤ g.MinIndex.i1 + strips g * (ny g / strips g) - 1) := by
    intro z r
    rw [bandLayer_covers hg z r, hdiv]
  refine ⟨hdiv, ⟨bandPlan g, stripPlan64_inRange hg hr, ?_, ?_⟩, ?_⟩
  · intro st hst
    obtain ⟨z, -, -, hz⟩ := mem_bandPlan.mp hst
    obtain ⟨n, hn0, hn1, rfl⟩ := mem_bandLayer.mp hz
    have h2 : 0 ≤ n * byPerStrip g := mul_nonneg hn0 hb
    have h3 : (n + 1) * byPerStrip g ≤ strips g * byPerStrip g :=
      mul_le_mul_of_nonneg_right (by omega) hb
    have h4 : (n + 1) * byPerStrip g = n * byPerStrip g + byPerStrip g := by ring
    rw [← hdiv]
    refine ⟨rfl, ?_, ?_, ?_⟩
    · simp only [bandStrip]
      congr 1
      ring
    · simp only [bandStrip]; omega
    · simp only [bandStrip]; omega
  · intro fuel env src dst srcUrl dstUrl s m hfuel hm hinfo
    exact sendLabels64_cases hg hr fuel hfuel env src dst srcUrl dstUrl s m hm hinfo
  intro z hz0 hz1
  have hcov := hcovz z
  refine ⟨bandLayer g z, layerStrips64_inRange hg hr hz0 hz1, hcov, by omega, by omega, ?_, ?_⟩
  · intro r h1 _ hex
    have := (hcov r).mp hex
    omega
  · intro hgt
    have h0 : ny g / strips g = 0 := Int.ediv_eq_zero_of_lt (by omega) hgt
    have hb0 : byPerStrip g = 0 := by rw [hdiv, h0]
    refine ⟨hb0, ?_⟩
    intro st hst
    obtain ⟨n, -, -, rfl⟩ := mem_bandLayer.mp hst
    refine ⟨?_, ?_⟩
    · simp [bandStrip, hb0]
    · intro r
      simp only [Strip.covers, bandStrip, hb0]
      omega

/-- C10 amended, at two geometries: three block rows in two bands leave row 2 out; one
block row in fourteen bands leaves every row out. -/
theorem layer_coverage_gap_witness :
    (Valid geomGap ∧ InRange geomGap ∧ strips64 geomGap = 2 ∧ ny geomGap = 3 ∧
      ∃ l, layerStrips64 geomGap 0 = some l ∧
        (∀ r, (∃ st ∈ l, st.covers r) ↔ (0 ≤ r ∧ r ≤ 1)) ∧
        ¬ ∃ st ∈ l, st.covers geomGap.MaxIndex.i1) ∧
    (Valid geomWide ∧ InRange geomWide ∧ strips64 geomWide = 14 ∧ ny geomWide = 1 ∧
      ∃ l, layerStrips64 geomWide 0 = some l ∧ l.length = 14 ∧
        ∀ st ∈ l, st.vy = 0 ∧ ∀ r, ¬ st.covers r) := by
  obtain ⟨l1, hl1, hcov1, -, -, hout1, -⟩ :=
    (layer_coverage_gap geomGap (by decide) (by decide)).2.2 0 (by decide) (by decide)
  obtain ⟨l2, hl2, -, -, -, -, hzero2⟩ :=
    (layer_coverage_gap geomWide (by decide) (by decide)).2.2 0 (by decide) (by decide)
  refine ⟨⟨by decide, by decide, by decide, by decide, l1, hl1, ?_, ?_⟩,
    ⟨by decide, by decide, by decide, by decide, l2, hl2, ?_, (hzero2 (by decide)).2⟩⟩
  · intro r
    rw [hcov1 r]
    have e : geomGap.MinIndex.i1 + strips64 geomGap * (ny geomGap / strips64 geomGap) - 1
        = 1 := by decide
    have e0 : geomGap.MinIndex.i1 = 0 := rfl
    rw [e, e0]
  · exact hout1 2 (by decide) (by decide)
  · have h14 : (layerStrips64 geomWide 0).map List.length = some 14 := by decide
    rw [hl2] at h14
    simpa using h14

end DvidTransfer
